import Mathlib

/-!
# Verification of the audit-traceability proxy (`src/app.py`)

Shallow embedding of the event-normalization and enrichment pipeline of the
FastAPI audit proxy.  JSON values (everything `requests.Response.json()` can
produce from the upstream APIs) are modelled by the inductive type `Value`;
Python `dict`s become association lists with insert-or-assign update (which
preserves Python's insertion-order semantics), Python numbers (int and float)
become exact rationals (all arithmetic performed by the code on the claims'
inputs — millisecond subtraction and division by 1000 — is exact in binary64,
so the rational model agrees with CPython), and Python exceptions become
`Except String`.

Conventions:
* `Value.null` models Python `None`; a canonical event's "missing" fields hold
  `Value.null` exactly as the Python dict stores `None`.
* JSON object keys are `String`s (CPython's `json` module always produces
  string keys, and every key the code inserts is passed through `str`).
* Python string methods (`strip`, `lower`, …) are modelled by
  kernel-computable functions over character lists (`pyStrip`, `pyLower`, …)
  that agree with CPython on the ASCII inputs exercised here.
-/

set_option maxHeartbeats 1000000

namespace AuditApp

/-- JSON-like runtime values flowing through the proxy (model of the Python
values produced by `Response.json()` plus `None`, strings and numbers the code
itself creates).  Python `bool` is kept separate from numbers so that
`isinstance(x, str)`-style checks can be modelled exactly; the numeric
cross-type behaviour of `bool` (e.g. `float(True) == 1.0`) is modelled where
the code can observe it. -/
inductive Value where
  | null : Value
  | b (x : Bool) : Value
  | n (q : ℚ) : Value
  | s (t : String) : Value
  | arr (xs : List Value) : Value
  | obj (kvs : List (String × Value)) : Value

mutual

/-- Python `==` between two modelled values.  `bool` compares equal to the
numbers `1`/`0` (CPython's `bool` is an `int` subclass); values of unrelated
types compare unequal.  Python's order-insensitive dict equality is modelled
order-sensitively — the only dict comparisons the code performs are against
`None`/`""`/`"Unknown"`, where the distinction cannot be observed. -/
def Value.pyEq : Value → Value → Bool
  | .null, .null => true
  | .b x, .b y => x == y
  | .b x, .n q => (if x then (1 : ℚ) else 0) == q
  | .n q, .b x => q == (if x then (1 : ℚ) else 0)
  | .n p, .n q => p == q
  | .s a, .s a' => a == a'
  | .arr xs, .arr ys => Value.pyEqList xs ys
  | .obj xs, .obj ys => Value.pyEqKVList xs ys
  | _, _ => false

/-- Pointwise Python `==` on lists. -/
def Value.pyEqList : List Value → List Value → Bool
  | [], [] => true
  | x :: xs, y :: ys => Value.pyEq x y && Value.pyEqList xs ys
  | _, _ => false

/-- Pointwise Python `==` on dict entry lists. -/
def Value.pyEqKVList : List (String × Value) → List (String × Value) → Bool
  | [], [] => true
  | (k, v) :: xs, (k', v') :: ys => k == k' && Value.pyEq v v' && Value.pyEqKVList xs ys
  | _, _ => false

end

namespace Value

/-- Python truthiness (`bool(x)`) for the modelled values. -/
def truthy : Value → Bool
  | .null => false
  | .b x => x
  | .n q => q != 0
  | .s t => t != ""
  | .arr xs => !xs.isEmpty
  | .obj kvs => !kvs.isEmpty

/-- Python `x or y`: returns `x` when truthy, else `y`. -/
def pyOr (x y : Value) : Value := if x.truthy then x else y

/-- `isinstance(x, dict)`. -/
def isObj : Value → Bool
  | .obj _ => true
  | _ => false

/-- `isinstance(x, str)`. -/
def isStr : Value → Bool
  | .s _ => true
  | _ => false

/-- `isinstance(x, list)`. -/
def isArr : Value → Bool
  | .arr _ => true
  | _ => false

/-- `isinstance(x, (int, float))`: numeric view of a value.  Python's `bool`
is a subclass of `int`, so `True`/`False` count as `1`/`0` here, exactly as in
CPython. -/
def asNum? : Value → Option ℚ
  | .n q => some q
  | .b x => some (if x then 1 else 0)
  | _ => none

/-- Model of Python `str(x)` for the values the code stringifies (dict keys
via `str(k)` and the `f"{etype}_{n}"` keys).  The claims only ever exercise
the string case; the representation chosen for the other constructors is a
modelling choice that no theorem depends on. -/
def pyStr : Value → String
  | .null => "None"
  | .b true => "True"
  | .b false => "False"
  | .s t => t
  | .n q => if q.den = 1 then toString q.num else toString q
  | .arr _ => "[...]"
  | .obj _ => "\x7b...\x7d"

end Value

/-! ### Kernel-computable models of the Python string operations

Lean's own `String.trim`, `String.toLower`, … are implemented through
`Substring` loops that the kernel cannot unfold, so the Python string methods
are modelled directly on character lists.  All agree with CPython on the
ASCII data this service handles (CPython's `str.strip`/`str.lower` additionally
treat some non-ASCII code points specially). -/

/-- The whitespace set of `str.strip()` (ASCII part). -/
def isSpaceChar (c : Char) : Bool :=
  c == ' ' || c == '\t' || c == '\n' || c == '\r' || c == '\x0b' || c == '\x0c'

/-- `str.strip()`. -/
def pyStrip (t : String) : String :=
  String.mk ((((t.toList.dropWhile isSpaceChar).reverse).dropWhile
    isSpaceChar).reverse)

/-- `str.lstrip()` as used by `text.lstrip()`. -/
def pyLStrip (t : String) : String :=
  String.mk (t.toList.dropWhile isSpaceChar)

/-- ASCII lowercasing of one character. -/
def charLower (c : Char) : Char :=
  if c.toNat ≥ 65 && c.toNat ≤ 90 then Char.ofNat (c.toNat + 32) else c

/-- `str.lower()`. -/
def pyLower (t : String) : String :=
  String.mk (t.toList.map charLower)

/-- `str.startswith(p)`. -/
def pyStartsWith (t p : String) : Bool :=
  p.toList.isPrefixOf t.toList

/-- `s[:n]` (character slice). -/
def pyTake (t : String) (n : ℕ) : String :=
  String.mk (t.toList.take n)

/-- `len(s)`. -/
def pyLen (t : String) : ℕ := t.toList.length

/-- `", ".join(parts)`-style joining. -/
def joinWith (sep : String) : List String → String
  | [] => ""
  | [x] => x
  | x :: rest => x ++ sep ++ joinWith sep rest

/-- `s.replace(old, "")` for a single character `old` (deleting every
occurrence). -/
def removeChar (c0 : Char) (cs : List Char) : List Char :=
  cs.filter (fun c => c != c0)

/-- Split a character list at every occurrence of a separator character
(`str.split(sep)` for one-character separators; adjacent separators yield
empty pieces, as in Python). -/
def splitOnCharAux (c0 : Char) : List Char → List Char → List (List Char)
  | [], cur => [cur.reverse]
  | c :: rest, cur =>
    if c == c0 then cur.reverse :: splitOnCharAux c0 rest []
    else splitOnCharAux c0 rest (c :: cur)

def splitOnChar (c0 : Char) (cs : List Char) : List (List Char) :=
  splitOnCharAux c0 cs []

/-- Does `needle` occur as a contiguous sublist of the argument? -/
def containsSublist (needle : List Char) : List Char → Bool
  | [] => needle.isEmpty
  | c :: rest => needle.isPrefixOf (c :: rest) || containsSublist needle rest

/-- `needle in hay` on strings (substring test). -/
def strContains (hay needle : String) : Bool :=
  containsSublist needle.toList hay.toList

/-- Key normalization used for the case-insensitive metadata index:
`k.lower().replace(" ", "").replace("_", "").replace("-", "")` (the three
replacements by the empty string delete every occurrence, in sequence). -/
def normKey (k : String) : String :=
  String.mk (removeChar '-' (removeChar '_' (removeChar ' '
    ((pyLower k).toList))))

/-- Lookup in a Python dict (`d[k]` / `k in d` discrimination): `none` when the
key is absent.  Dicts are association lists whose key order models Python's
insertion order; `pyDictSet` keeps keys unique, so the first match is the only
match. -/
def pyGet? : List (String × Value) → String → Option Value
  | [], _ => none
  | (k', v) :: rest, k => if k' = k then some v else pyGet? rest k

/-- Python `d.get(k)` (defaulting to `None`). -/
def pyGet (d : List (String × Value)) (k : String) : Value :=
  (pyGet? d k).getD .null

/-- Python `d.get(k, dflt)`. -/
def pyGetD (d : List (String × Value)) (k : String) (dflt : Value) : Value :=
  (pyGet? d k).getD dflt

/-- Python `d[k] = v`: insert-or-assign preserving insertion order (an existing
key keeps its position, a new key is appended). -/
def pyDictSet : List (String × Value) → String → Value → List (String × Value)
  | [], k, v => [(k, v)]
  | (k', v') :: rest, k, v =>
    if k' = k then (k', v) :: rest else (k', v') :: pyDictSet rest k v

/-- Python `d.update(src)` for a dict-valued `src`: assign every pair of `src`
in iteration order. -/
def pyDictUpdate (d : List (String × Value)) (src : List (String × Value)) :
    List (String × Value) :=
  src.foldl (fun acc kv => pyDictSet acc kv.1 kv.2) d

/-- Python `for x in v`: the element sequence of an iterable value, or an
error (`TypeError`) for non-iterables.  Iterating a dict yields its keys,
iterating a string yields its one-character substrings. -/
def pyIterate : Value → Except String (List Value)
  | .arr xs => .ok xs
  | .obj kvs => .ok (kvs.map (fun kv => .s kv.1))
  | .s t => .ok (t.toList.map (fun c => .s (String.mk [c])))
  | _ => .error "TypeError: object is not iterable"

/-- Python attribute access `x.get(k)` used on values that may not be dicts:
raises `AttributeError` unless `x` is a dict. -/
def vGet (x : Value) (k : String) : Except String Value :=
  match x with
  | .obj kvs => .ok (pyGet kvs k)
  | _ => .error "AttributeError: object has no attribute get"

/-- View a value as a dict's entry list, raising (`AttributeError` on the
first `.get` use) otherwise.  Used for the substructures (`actor`, `action`,
`in`, `targets[0]`, `entity`) on which the code calls `.get` unconditionally. -/
def asDict (x : Value) : Except String (List (String × Value)) :=
  match x with
  | .obj kvs => .ok kvs
  | _ => .error "AttributeError: object has no attribute get"

/-- Python `x[0]` on a truthy value (`targets[0]`).  Lists index, strings
index to one-character strings, everything else raises. -/
def pyIndex0 (x : Value) : Except String Value :=
  match x with
  | .arr (v :: _) => .ok v
  | .arr [] => .error "IndexError"
  | .s t =>
    match t.toList with
    | c :: _ => .ok (.s (String.mk [c]))
    | [] => .error "IndexError"
  | _ => .error "TypeError: object is not subscriptable"

/-- Python `x.lower()` applied to a value expected to be a string (the code
writes `(d.get(k) or "").lower()`): raises `AttributeError` on truthy
non-strings. -/
def asStrLower (x : Value) : Except String String :=
  match x with
  | .s t => .ok (pyLower t)
  | _ => .error "AttributeError: object has no attribute lower"

/-- Digit run to a natural number. -/
def digitsToNat (cs : List Char) : ℕ :=
  cs.foldl (fun a c => a * 10 + (c.toNat - 48)) 0

/-- Nonempty all-digit run. -/
def allDigits (cs : List Char) : Bool :=
  !cs.isEmpty && cs.all (·.isDigit)

/-- Unsigned decimal mantissa: `digits`, `digits.`, `.digits` or
`digits.digits`. -/
def parseMantissaUnsigned (x : String) : Option ℚ :=
  match splitOnChar '.' x.toList with
  | [a] => if allDigits a then some (digitsToNat a) else none
  | [a, b] =>
    if (a.all (·.isDigit)) && (b.all (·.isDigit)) && !(a.isEmpty && b.isEmpty) then
      some ((digitsToNat a : ℚ) + (digitsToNat b : ℚ) / (10 : ℚ) ^ b.length)
    else none
  | _ => none

/-- Optional sign wrapper for mantissas. -/
def parseMantissa (x : String) : Option ℚ :=
  match x.toList with
  | '+' :: rest => parseMantissaUnsigned (String.mk rest)
  | '-' :: rest => (parseMantissaUnsigned (String.mk rest)).map Neg.neg
  | _ => parseMantissaUnsigned x

/-- Signed integer exponent. -/
def parseExponent (x : String) : Option ℤ :=
  match x.toList with
  | '+' :: rest => if allDigits rest then some (digitsToNat rest) else none
  | '-' :: rest => if allDigits rest then some (-(digitsToNat rest : ℤ)) else none
  | cs => if allDigits cs then some (digitsToNat cs) else none

/-- Model of Python `float(t)` for a stripped string `t`, as an exact
rational: `none` models `ValueError`.  (CPython additionally accepts
`inf`/`nan` spellings and underscore separators, and rounds decimals to
binary64; none of those corners is reachable from the claims' inputs.) -/
def parsePyFloat (t : String) : Option ℚ :=
  match splitOnChar 'e' (pyLower t).toList with
  | [m] => parseMantissa (String.mk m)
  | [m, ex] => do
    let q ← parseMantissa (String.mk m)
    let e ← parseExponent (String.mk ex)
    pure (q * (10 : ℚ) ^ e)
  | _ => none

/-- `x is None`. -/
def Value.isNull : Value → Bool
  | .null => true
  | _ => false

/-- The entries of a value when it is a dict, `{}`-equivalent otherwise
(the `metadata.get(k) if isinstance(metadata.get(k), dict) else {}` idiom). -/
def dictOrEmpty (v : Value) : List (String × Value) :=
  match v with
  | .obj kvs => kvs
  | _ => []

/-- Lookup in a Python dict keyed by arbitrary values (`type_counters`),
using Python `==` on keys. -/
def pyAssocGet : List (Value × ℕ) → Value → Option ℕ
  | [], _ => none
  | (k', c) :: rest, k => if k'.pyEq k then some c else pyAssocGet rest k

/-- Insert-or-assign for a Python dict keyed by arbitrary values. -/
def pyAssocSet : List (Value × ℕ) → Value → ℕ → List (Value × ℕ)
  | [], k, c => [(k, c)]
  | (k', c') :: rest, k, c =>
    if k'.pyEq k then (k', c) :: rest else (k', c') :: pyAssocSet rest k c

/-- The canonical-event field names: the keys of the dict returned by
`_normalize_audit_event` (and read/written by the enrichment stages via
`event.get(key)` / `event[key] = value`). -/
inductive CField where
  | id | event | timestamp | actorId | actorName | actorFirstName | actorLastName
  | targetType | targetId | targetName | withinProjectId | withinProjectName
  | eventSource | traceId | electronicallySigned | metadata | command | status
  | durationSec | computeTier | hardwareTier | hardwareTierId | environmentName
  | runId | jobId | runType | runFile | runOrigin | raw
  deriving DecidableEq

/-- A canonical event: total mapping from the canonical field names to Python
values (`Value.null` models a field holding `None`). -/
def Canon := CField → Value

/-- `_first_non_empty(*values)`: the first trimmed nonempty string among the
candidates, else `None`. -/
def first_non_empty : List Value → Value
  | [] => .null
  | v :: rest =>
    match v with
    | .s t => if pyStrip t ≠ "" then .s (pyStrip t) else first_non_empty rest
    | _ => first_non_empty rest

/-- `_first_number(*values)`: the first candidate that is numeric (including
`bool`, an `int` subclass in Python) or a string parseable as a float, else
`None`. -/
def first_number : List Value → Value
  | [] => .null
  | v :: rest =>
    match v.asNum? with
    | some q => .n q
    | none =>
      match v with
      | .s t =>
        match parsePyFloat (pyStrip t) with
        | some q => .n q
        | none => first_number rest
      | _ => first_number rest

/-- The `_meta_lower` case-insensitive index: every string-keyed, nonblank
string-valued metadata entry is assigned (insert-or-assign, so a later entry
with the same normalized key overwrites an earlier one) under its normalized
key.  The source's `isinstance(k, str)` guard is always satisfied here because
all modelled dict keys are strings (JSON objects have string keys and every
key the code inserts passes through `str`). -/
def metaLower (metadata : List (String × Value)) : List (String × Value) :=
  metadata.foldl (fun acc kv =>
    match kv.2 with
    | .s t => if pyStrip t ≠ "" then pyDictSet acc (normKey kv.1) (.s (pyStrip t)) else acc
    | _ => acc) []

/-- `_ci(key)`: case-insensitive metadata lookup through the `_meta_lower`
index (`None` when the normalized key is absent). -/
def ci (ml : List (String × Value)) (key : String) : Value :=
  pyGet ml (normKey key)

/-- `_metadata_first_match(meta, prefix)` (defined in the source, never
called): tuple of trimmed string values under keys starting with the prefix,
else `None`.  The `isinstance(k, str)` guard is always satisfied (string
keys). -/
def metadata_first_match (meta : List (String × Value)) (pre : String) : Value :=
  let out := meta.foldl (fun acc kv =>
    match kv.2 with
    | .s t => if pyStartsWith kv.1 pre && pyStrip t ≠ "" then acc ++ [pyStrip t] else acc
    | _ => acc) []
  if out.isEmpty then .null else .arr (out.map .s)

/-- `_deep_get(obj, *keys)`: walk nested dicts, returning the final value when
it is a nonblank string (trimmed), else `None`. -/
def deep_get (v : Value) : List String → Value
  | [] =>
    match v with
    | .s t => if pyStrip t ≠ "" then .s (pyStrip t) else .null
    | _ => .null
  | k :: rest =>
    match v with
    | .obj kvs => deep_get (pyGet kvs k) rest
    | _ => .null

/-- `_normalize_audit_event(raw)`: map an Admin-Guide-API event dict to the
canonical frontend record.  The argument is the entry list of the raw event
dict (call sites guard `isinstance(ev, dict)`).  Python exceptions — raised
when a substructure is present as a truthy non-dict (`.get` on it), when
`affecting`/`using` is a truthy non-iterable, or when a `.lower()`/`join`
operand is a truthy non-string — are modelled by `Except.error`.
`entity_type` is computed once and reused where the source re-evaluates the
same `(entity.get("entityType") or "").lower()` expression; the
`isinstance(meta_hardware, dict)` test on line 319 of the source is always
true (`meta_hardware` is coerced to a dict on line 224), so only its then
branch is modelled. -/
def normalize_audit_event (raw : List (String × Value)) : Except String Canon := do
  let actor ← asDict ((pyGet raw "actor").pyOr (.obj []))
  let action ← asDict ((pyGet raw "action").pyOr (.obj []))
  let context_in ← asDict ((pyGet raw "in").pyOr (.obj []))
  let targets := (pyGet raw "targets").pyOr (.arr [])
  let first_target ← if targets.truthy then pyIndex0 targets else pure (Value.obj [])
  let ftD ← asDict first_target
  let entity ← asDict ((pyGet ftD "entity").pyOr (.obj []))
  -- affecting[] pass 1: first environment / hardwareTier entity (lines 124-136)
  let affecting ← pyIterate ((pyGet raw "affecting").pyOr (.arr []))
  let affSt ← affecting.foldlM (fun (st : Value × Value × Value) aff => do
    match aff with
    | .obj affD => do
      let etype ← asStrLower ((pyGet affD "entityType").pyOr (.s ""))
      if etype == "environment" && !st.1.truthy then
        pure (pyGet affD "name", st.2.1, st.2.2)
      else if etype == "hardwaretier" && !st.2.1.truthy then
        pure (st.1, pyGet affD "name", pyGet affD "id")
      else pure st
    | _ => pure st) (Value.null, Value.null, Value.null)
  let affecting_env_name := affSt.1
  let affecting_hw_name := affSt.2.1
  let affecting_hw_id := affSt.2.2
  -- unified metadata merge (lines 141-159)
  let sources : List Value := [pyGet raw "metadata",
    pyGet ftD "customAttributes", pyGet ftD "attributes", pyGet ftD "properties",
    pyGet entity "customAttributes", pyGet entity "attributes", pyGet entity "properties"]
  let metadata := sources.foldl (fun md src =>
    match src with
    | .obj kvs => pyDictUpdate md kvs
    | .arr items => items.foldl (fun md item =>
        match item with
        | .obj itemD =>
          let k := (pyGet itemD "key").pyOr ((pyGet itemD "name").pyOr (pyGet itemD "attribute"))
          let v := pyGet itemD "value"
          if k.truthy && !v.isNull then pyDictSet md k.pyStr v else md
        | _ => md) md
    | _ => md) []
  -- affecting[] pass 2: expand entities into metadata (lines 163-171)
  let expanded := affecting.foldl
    (fun (acc : List (Value × ℕ) × List (String × Value)) aff =>
      match aff with
      | .obj affD =>
        let etype := pyGetD affD "entityType" (.s "entity")
        let aname := pyGetD affD "name" (.s "")
        let cnt := (pyAssocGet acc.1 etype).getD 0 + 1
        let counters := pyAssocSet acc.1 etype cnt
        if aname.truthy then
          (counters, pyDictSet acc.2 (etype.pyStr ++ "_" ++ toString cnt) aname)
        else (counters, acc.2)
      | _ => acc) ([], metadata)
  let metadata := expanded.2
  let ml := metaLower metadata
  -- nested domaudit-style objects (lines 220-224)
  let meta_statuses := dictOrEmpty (pyGet metadata "statuses")
  let meta_stage_time := dictOrEmpty (pyGet metadata "stageTime")
  let meta_environment := dictOrEmpty (pyGet metadata "environment")
  let meta_started_by := dictOrEmpty (pyGet metadata "startedBy")
  let meta_hardware := dictOrEmpty (pyGet metadata "hardwareTier")
  -- stageTime duration (lines 226-231)
  let stage_duration : Value :=
    match (pyGet meta_stage_time "completedTime").asNum?,
          (pyGet meta_stage_time "runStartTime").asNum? with
    | some c, some st => if st < c then .n ((c - st) / 1000) else .null
    | _, _ => .null
  -- inferred run type (lines 233-244)
  let event_name ← asStrLower ((pyGet action "eventName").pyOr (.s ""))
  let entity_type ← asStrLower ((pyGet entity "entityType").pyOr (.s ""))
  let inferred_run_type : Value :=
    if strContains event_name "workspace" || entity_type == "workspace" then .s "Workspace"
    else if strContains event_name "job" || entity_type == "job" then .s "Job"
    else if strContains event_name "app" then .s "App"
    else if strContains event_name "run" || entity_type == "run" then .s "Run"
    else .null
  let workspace_name := if entity_type == "workspace" then pyGet entity "name" else Value.null
  -- event source from action.using[] (lines 250-251)
  let usingElems ← pyIterate ((pyGet action "using").pyOr (.arr []))
  let parts ← usingElems.foldlM (fun (parts : List String) u => do
    match u with
    | .obj uD =>
      if (pyGet uD "id").truthy then
        match pyGetD uD "id" (.s "") with
        | .s t => pure (parts ++ [t])
        | _ => Except.error "TypeError: sequence item expected str instance"
      else pure parts
    | _ => pure parts) []
  let event_source :=
    if joinWith ", " parts == "" then Value.null
    else Value.s (joinWith ", " parts)
  pure (fun f => match f with
    | .id => pyGet raw "id"
    | .event => ((pyGet action "eventName").pyOr (pyGet raw "event")).pyOr (.s "")
    | .timestamp => pyGet raw "timestamp"
    | .actorId => (pyGet actor "id").pyOr (pyGet actor "userId")
    | .actorName => first_non_empty [pyGet actor "name",
        deep_get (.obj metadata) ["startedBy", "username"],
        pyGet meta_started_by "username"]
    | .actorFirstName => pyGet actor "firstName"
    | .actorLastName => pyGet actor "lastName"
    | .targetType => (pyGet entity "entityType").pyOr (pyGet raw "targetType")
    | .targetId => (pyGet entity "id").pyOr (pyGet raw "targetId")
    | .targetName => (pyGet entity "name").pyOr (pyGet raw "targetName")
    | .withinProjectId => (pyGet context_in "id").pyOr (pyGet raw "withinProjectId")
    | .withinProjectName => (pyGet context_in "name").pyOr (pyGet raw "withinProjectName")
    | .eventSource => event_source
    | .traceId => pyGet action "traceId"
    | .electronicallySigned => pyGet action "electronicallySigned"
    | .metadata => .obj metadata
    | .command => first_non_empty [pyGet raw "command",
        pyGet metadata "Run Command", pyGet metadata "runCommand",
        pyGet metadata "command", pyGet metadata "jobRunCommand",
        pyGet metadata "commandToRun", pyGet metadata "commandLine",
        pyGet metadata "entrypoint", ci ml "runcommand", ci ml "command",
        workspace_name]
    | .status => first_non_empty [pyGet raw "status",
        pyGet metadata "Execution Status", pyGet metadata "status",
        pyGet metadata "runStatus", pyGet metadata "executionStatus",
        pyGet meta_statuses "executionStatus", pyGet metadata "currentStatus",
        deep_get (.obj metadata) ["data", "currentStatus"],
        ci ml "executionstatus", ci ml "status"]
    | .durationSec => first_number [pyGet raw "durationSec",
        pyGet metadata "runDurationSec", pyGet metadata "runDurationSeconds",
        pyGet metadata "runDurationInSeconds", pyGet metadata "Run Duration",
        stage_duration]
    | .computeTier => first_non_empty [pyGet raw "computeTier",
        pyGet metadata "computeTier", pyGet metadata "computeSize",
        pyGet metadata "tier", pyGet metadata "machineSize"]
    | .hardwareTier => first_non_empty [pyGet raw "hardwareTier",
        affecting_hw_name, pyGet metadata "Hardware Tier",
        pyGet metadata "hardwareTierName", pyGet meta_hardware "name",
        pyGet metadata "hardware", ci ml "hardwaretier"]
    | .hardwareTierId => affecting_hw_id
    | .environmentName => first_non_empty [pyGet raw "environmentName",
        affecting_env_name, pyGet metadata "Environment",
        pyGet metadata "environmentName", pyGet meta_environment "environmentName",
        (match pyGet metadata "environment" with
         | .s t => Value.s t
         | _ => Value.null),
        pyGet metadata "environmentRevisionName",
        pyGet metadata "environmentDisplayName",
        ci ml "environment", ci ml "environmentname"]
    | .runId => first_non_empty [pyGet raw "runId",
        pyGet metadata "Run", pyGet metadata "runId", pyGet metadata "executionId",
        (if entity_type == "run" || entity_type == "job" then pyGet entity "id"
         else Value.null),
        ci ml "run", ci ml "runid"]
    | .jobId => first_non_empty [pyGet metadata "jobId", pyGet metadata "Job",
        (if entity_type == "job" then pyGet entity "id" else Value.null),
        ci ml "jobid"]
    | .runType => first_non_empty [pyGet metadata "Run Type",
        pyGet metadata "runType", pyGet metadata "executionType",
        pyGet metadata "workloadType", ci ml "runtype", inferred_run_type]
    | .runFile => first_non_empty [pyGet raw "runFile",
        pyGet metadata "Run File", pyGet metadata "runFile",
        pyGet metadata "filename", ci ml "runfile"]
    | .runOrigin => first_non_empty [pyGet raw "runOrigin",
        pyGet metadata "Run Origin", pyGet metadata "runOrigin",
        pyGet metadata "source", ci ml "runorigin"]
    | .raw => .obj [("id", pyGet raw "id"), ("action", pyGet raw "action"),
        ("in", pyGet raw "in"), ("targets", pyGet raw "targets"),
        ("affecting", pyGet raw "affecting"), ("source", pyGet raw "source")])

/-- `_normalize_audit_event` on a parsed JSON value; the call sites only apply
it to values passing `isinstance(ev, dict)`. -/
def normalizeValue (v : Value) : Except String Canon :=
  match v with
  | .obj kvs => normalize_audit_event kvs
  | _ => .error "TypeError"

/-- The comprehension `[_normalize_audit_event(ev) for ev in raw_events if
isinstance(ev, dict)]` (an exception from any element propagates). -/
def normalizeRaws (raws : List Value) : Except String (List Canon) :=
  (raws.filter Value.isObj).mapM normalizeValue

/-! ## Enrichment stages

Configuration constants below are the defaults of the corresponding
environment variables read at module load. -/

def RUNS_ENRICHMENT_ENABLED : Bool := true
def RUNS_ENRICHMENT_MAX_RUNS : ℕ := 300
def JOBS_ENRICHMENT_ENABLED : Bool := true
def JOBS_ENRICHMENT_MAX : ℕ := 200
def CC_ENRICHMENT_ENABLED : Bool := true
def AUDIT_API_MAX_LIMIT : ℕ := 1000
def AUDIT_PAGINATION_CAP : ℕ := 50000

/-- `event.get(key) in (None, "", "Unknown")`: a field value considered blank
(overwritable) by `_fill`. -/
def blankGet (v : Value) : Bool :=
  match v with
  | .null => true
  | .s t => t == "" || t == "Unknown"
  | _ => false

/-- `value in (None, "")`: an enrichment value `_fill` refuses to write. -/
def blankVal (v : Value) : Bool :=
  match v with
  | .null => true
  | .s t => t == ""
  | _ => false

/-- `_fill(event, key, value)` — textually identical in all three enrichment
stages (lines 433-438, 519-524 and 650-655 of the source). -/
def fill (e : Canon) (k : CField) (v : Value) : Canon :=
  if !blankGet (e k) then e
  else if blankVal v then e
  else Function.update e k v

/-- A straight-line sequence of `_fill` calls on one event. -/
def applyFills (e : Canon) : List (CField × Value) → Canon
  | [] => e
  | (k, v) :: ops => applyFills (fill e k v) ops

/-- Run-id collection loop of `_enrich_events_with_runs` (lines 397-411):
distinct, nonblank, non-`"unknown"` (case-insensitive) string `runId`s in
first-seen order, stopping once the cap is reached.  The source's `seen` set
always holds exactly the collected ids, so membership is tested on the
accumulator. -/
def collectRunIds : List Canon → List String → List String
  | [], acc => acc
  | e :: rest, acc =>
    match e .runId with
    | .s rid0 =>
      if pyStrip rid0 = "" then collectRunIds rest acc
      else
        let rid := pyStrip rid0
        if pyLower rid = "unknown" then collectRunIds rest acc
        else if acc.contains rid then collectRunIds rest acc
        else
          let acc' := acc ++ [rid]
          if RUNS_ENRICHMENT_MAX_RUNS ≤ acc'.length then acc'
          else collectRunIds rest acc'
    | _ => collectRunIds rest acc

/-- Run resolution loop (lines 416-427).  `fetchRun rid = some payload`
models a 2xx response for `/v4/runs/{rid}` whose parsed JSON body is
`payload`; `none` models a non-2xx response or any exception (both
`continue`).  Only dict payloads are recorded. -/
def resolveRuns (fetchRun : String → Option Value) (runIds : List String) :
    List (String × Value) :=
  runIds.foldl (fun acc rid =>
    match fetchRun rid with
    | some payload => if payload.isObj then pyDictSet acc rid payload else acc
    | none => acc) []

/-- The `_fill` sequence `_enrich_events_with_runs` applies to one matched
event (lines 448-463). -/
def runFillOps (rd : List (String × Value)) : List (CField × Value) :=
  [(.command, pyGet rd "command"),
   (.status, pyGet rd "status"),
   (.durationSec, (pyGet rd "runDurationInSeconds").pyOr (pyGet rd "runDurationSec")),
   (.hardwareTier, (pyGet rd "hardwareTierName").pyOr (pyGet rd "hardwareTier")),
   (.withinProjectName, (pyGet rd "projectIdentity").pyOr (pyGet rd "projectName")),
   (.actorName, pyGet rd "userName"),
   (.targetName, pyGet rd "title"),
   (.environmentName,
     match pyGet rd "environmentDetails" with
     | .obj ed => (pyGet ed "name").pyOr (pyGet ed "environmentName")
     | _ => .null)]

/-- Fill phase of `_enrich_events_with_runs` for one event (lines 441-464):
skip unless `runId` is a string whose (unstripped) value hits a truthy table
entry.  Table values are always nonempty dicts, so the `.obj` fallback arm is
unreachable. -/
def enrichOneWithRuns (tbl : List (String × Value)) (e : Canon) : Canon :=
  match e .runId with
  | .s rid =>
    match pyGet? tbl rid with
    | some rd =>
      if rd.truthy then
        match rd with
        | .obj rdD => applyFills e (runFillOps rdD)
        | _ => e
      else e
    | none => e
  | _ => e

/-- `_enrich_events_with_runs(events, headers)` (lines 384-467), with the
per-id HTTP lookup abstracted as `fetchRun` (the auth headers and host only
shape the request, which the oracle absorbs).  `base` is the result of
`get_domino_host()` (`none` when `DOMINO_API_HOST` is unset). -/
def enrich_events_with_runs (events : List Canon) (base : Option String)
    (fetchRun : String → Option Value) : List Canon :=
  if !RUNS_ENRICHMENT_ENABLED then events
  else
    match base with
    | none => events
    | some _ =>
      let runIds := collectRunIds events []
      if runIds.isEmpty then events
      else
        let tbl := resolveRuns fetchRun runIds
        if tbl.isEmpty then events
        else events.map (enrichOneWithRuns tbl)

/-- Job-id collection loop of `_enrich_events_with_jobs` (lines 484-494).
The cap is tested once per event, after the (possibly skipped) append. -/
def collectJobIds : List Canon → List String → List String
  | [], acc => acc
  | e :: rest, acc =>
    let acc' :=
      match (e .jobId).pyOr (.s "") with
      | .s jid0 =>
        if pyStrip jid0 ≠ "" && pyLower (pyStrip jid0) ≠ "unknown"
            && !acc.contains (pyStrip jid0) then
          acc ++ [pyStrip jid0]
        else acc
      | _ => acc
    if JOBS_ENRICHMENT_MAX ≤ acc'.length then acc'
    else collectJobIds rest acc'

/-- Job resolution loop (lines 499-513): for each id, `/v4/jobs/{jid}` and
`/v4/jobs/{jid}/runtimeExecutionDetails` are fetched and dict payloads merged
(later keys overwrite earlier); `none` models a non-2xx response or an
exception for that sub-request.  Only nonempty merges are recorded. -/
def resolveJobs (fetchJob fetchJobRuntime : String → Option Value)
    (jobIds : List String) : List (String × Value) :=
  jobIds.foldl (fun acc jid =>
    let merged := [fetchJob jid, fetchJobRuntime jid].foldl (fun m r =>
      match r with
      | some (.obj kvs) => pyDictUpdate m kvs
      | _ => m) []
    if merged.isEmpty then acc else pyDictSet acc jid (.obj merged)) []

/-- The `_fill` sequence `_enrich_events_with_jobs` applies to one matched
event (lines 535-572), conditions resolved against the job payload. -/
def jobFillOps (job : List (String × Value)) : List (CField × Value) :=
  [(.command, (pyGet job "jobRunCommand").pyOr (pyGet job "command"))]
  ++ (match (pyGet job "statuses").pyOr (.obj []) with
      | .obj st => [(.status, pyGet st "executionStatus")]
      | _ => [])
  ++ [(.status, pyGet job "status")]
  ++ (match pyGet job "hardwareTier" with
      | .obj hw => [(.hardwareTier, (pyGet hw "name").pyOr (pyGet hw "hardwareTierName"))]
      | .s t => [(.hardwareTier, .s t)]
      | _ => [])
  ++ [(.hardwareTier, pyGet job "hardwareTierName")]
  ++ (match (pyGet job "environment").pyOr (.obj []) with
      | .obj env => [(.environmentName, pyGet env "environmentName")]
      | _ => [])
  ++ (match (pyGet job "startedBy").pyOr (.obj []) with
      | .obj sb => [(.actorName, pyGet sb "username")]
      | _ => [])
  ++ (match (pyGet job "stageTime").pyOr (.obj []) with
      | .obj stg =>
        (match (pyGet stg "completedTime").asNum?, (pyGet stg "runStartTime").asNum? with
         | some c, some st => if st < c then [(.durationSec, .n ((c - st) / 1000))] else []
         | _, _ => [])
      | _ => [])
  ++ [(.durationSec, pyGet job "runDurationInSeconds"),
      (.withinProjectName, pyGet job "projectName"),
      (.targetName, (pyGet job "title").pyOr (pyGet job "name"))]

/-- Fill phase of `_enrich_events_with_jobs` for one event (lines 527-574).
`(event.get("jobId") or "").strip()` raises `AttributeError` when `jobId`
holds a truthy non-string, modelled by `Except.error`. -/
def enrichOneWithJobs (tbl : List (String × Value)) (e : Canon) :
    Except String Canon :=
  match (e .jobId).pyOr (.s "") with
  | .s jid0 =>
    if pyStrip jid0 = "" then .ok e
    else
      match pyGet? tbl (pyStrip jid0) with
      | some job =>
        if job.truthy then
          match job with
          | .obj jobD => .ok (applyFills e (jobFillOps jobD))
          | _ => .ok e
        else .ok e
      | none => .ok e
  | _ => .error "AttributeError: object has no attribute strip"

/-- `_enrich_events_with_jobs(events, headers)` (lines 470-577), per-id
lookups abstracted as the two oracles. -/
def enrich_events_with_jobs (events : List Canon) (base : Option String)
    (fetchJob fetchJobRuntime : String → Option Value) :
    Except String (List Canon) :=
  if !JOBS_ENRICHMENT_ENABLED then .ok events
  else
    match base with
    | none => .ok events
    | some _ =>
      let jobIds := collectJobIds events []
      if jobIds.isEmpty then .ok events
      else
        let tbl := resolveJobs fetchJob fetchJobRuntime jobIds
        if tbl.isEmpty then .ok events
        else events.mapM (enrichOneWithJobs tbl)

/-- Outcome of a single upstream HTTP request: `transport` models a raised
exception (connection error, timeout, or a request/JSON-decode failure caught
by the surrounding `except`), `resp` a completed response with its parsed
body. -/
inductive FetchOutcome where
  | transport (e : String)
  | resp (status : ℕ) (body : Value)

/-- `requests.Response.ok`: true exactly when the status code is below 400. -/
def respOkStatus (status : ℕ) : Bool := status < 400

/-- Lookup in a Python dict keyed by arbitrary values, using Python `==`. -/
def pyVDictGet : List (Value × Value) → Value → Option Value
  | [], _ => none
  | (k', v) :: rest, k => if k'.pyEq k then some v else pyVDictGet rest k

/-- Insert-or-assign for a Python dict keyed by arbitrary values. -/
def pyVDictSet : List (Value × Value) → Value → Value → List (Value × Value)
  | [], k, v => [(k, v)]
  | (k', v') :: rest, k, v =>
    if k'.pyEq k then (k', v) :: rest else (k', v') :: pyVDictSet rest k v

/-- Hardware-tier id→name table of the Control-Center stage (lines 613-625):
any failure (exception or non-2xx) leaves the table empty and the stage
proceeds.  Entries need a truthy `id` and `name`; `tier["id"]` is used as the
dict key as-is, hence the value-keyed dict. -/
def ccHwTierNames : FetchOutcome → List (Value × Value)
  | .transport _ => []
  | .resp status body =>
    if respOkStatus status then
      match body with
      | .arr tiers => tiers.foldl (fun acc tier =>
          match tier with
          | .obj tD =>
            if (pyGet tD "id").truthy && (pyGet tD "name").truthy then
              pyVDictSet acc (pyGet tD "id") (pyGet tD "name")
            else acc
          | _ => acc) []
      | _ => []
    else []

/-- Indexing of the Control-Center run-utilization records by id (lines
634-638): only dicts with a truthy `id` contribute. -/
def ccIndexRuns (body : Value) : List (Value × Value) :=
  match body with
  | .arr runs => runs.foldl (fun acc run =>
      match run with
      | .obj rD =>
        if (pyGet rD "id").truthy then pyVDictSet acc (pyGet rD "id") (.obj rD)
        else acc
      | _ => acc) []
  | _ => []

/-- The `_fill` sequence the Control-Center stage applies to one matched
event (lines 666-679): duration, hardware/compute tier resolved through the
id→name table (falling back to the raw id), project, user and run type. -/
def ccFillOps (rd : List (String × Value)) (hwNames : List (Value × Value)) :
    List (CField × Value) :=
  [(.durationSec, pyGet rd "runDurationInSeconds")]
  ++ (match pyGet rd "hardwareTierId" with
      | .s hid =>
        let hwName := (pyVDictGet hwNames (.s hid)).getD (.s hid)
        [(.hardwareTier, hwName), (.computeTier, hwName)]
      | _ => [])
  ++ [(.withinProjectName, pyGet rd "projectIdentity"),
      (.actorName, pyGet rd "startingUserFullName")]
  ++ (match pyGet rd "runType" with
      | .s rt => if pyStrip rt ≠ "" then [(.runType, .s (pyStrip rt))] else []
      | _ => [])

/-- Fill phase of the Control-Center stage for one event (lines 658-681):
skip unless `runId` is a string whose stripped value hits a truthy record. -/
def enrichOneFromCC (tbl hwNames : List (Value × Value)) (e : Canon) : Canon :=
  match e .runId with
  | .s rid =>
    match pyVDictGet tbl (.s (pyStrip rid)) with
    | some run =>
      if run.truthy then
        match run with
        | .obj rD => applyFills e (ccFillOps rD hwNames)
        | _ => e
      else e
    | none => e
  | _ => e

/-- `_enrich_events_bulk_from_control_center(events, headers)` (lines
580-684), with the two upstream calls abstracted as prefetched outcomes
(`hwOutcome` for `GET /hardwareTier`, `runsOutcome` for
`GET /controlCenter/utilization/runs`).  The computed date window
(min/max timestamp ± 1 day with ms→s normalization, lines 598-610) only
parametrizes the runs request URL, which the outcome absorbs; the
numeric-timestamp guard it depends on is modelled.  A transport/JSON failure
of the runs call and a non-2xx runs response both return the events
untouched; a hardware-tier failure only leaves that table empty. -/
def enrich_events_bulk_from_control_center (events : List Canon)
    (base : Option String) (hwOutcome runsOutcome : FetchOutcome) :
    List Canon :=
  if !CC_ENRICHMENT_ENABLED then events
  else
    match base with
    | none => events
    | some _ =>
      if (events.filter (fun e => ((e .timestamp).asNum?).isSome)).isEmpty then
        events
      else
        let hwNames := ccHwTierNames hwOutcome
        match runsOutcome with
        | .transport _ => events
        | .resp status body =>
          if !respOkStatus status then events
          else
            let tbl := ccIndexRuns body
            if tbl.isEmpty then events
            else events.map (enrichOneFromCC tbl hwNames)

/-! ## The `GET /api/audit` endpoint: path discovery and pagination -/

/-- `_sanitize_upstream_error(status_code, body)` (lines 746-764).  `body` is
the parsed JSON of the upstream response, or its text when parsing failed
(`Value.s`), or JSON `null` (the `body is None` branch). -/
def sanitize_upstream_error (status_code : ℕ) (body : Value) : String :=
  match body with
  | .null => "Audit API returned " ++ toString status_code
  | _ =>
    let text0 := match body with | .s t => t | v => v.pyStr
    let text := pyStrip text0
    if text ≠ "" && (pyStartsWith (pyLStrip text) "<"
        || strContains (pyLower (pyTake text 200)) "<!doctype"
        || strContains (pyLower text) "</html>") then
      "Domino returned " ++ toString status_code ++
        " (HTML page — audit endpoint not found). " ++
        "The Audit Trail API may not be enabled or may use a different path on this deployment."
    else
      let text1 := if pyLen text > 500 then pyTake text 500 ++ "..." else text
      if text1 = "" then "Audit API returned " ++ toString status_code else text1

/-- `_audit_paths_to_try()` (lines 767-777) over the configured primary path
and fallback list: slash-prefix each, drop empty fallbacks, dedupe keeping
first occurrence (`seen` always holds exactly the emitted paths). -/
def audit_paths_to_try (primary : String) (fallbacks : List String) : List String :=
  let primaryP := if pyStartsWith primary "/" then primary else "/" ++ primary
  let rest := (fallbacks.filter (· ≠ "")).map
    (fun p => if pyStartsWith p "/" then p else "/" ++ p)
  rest.foldl (fun out p => if out.contains p then out else out ++ [p]) [primaryP]

/-- `_parse_events_from_response(data)` (lines 780-786), including the
`TypeError` that `list(...)` raises on truthy non-iterables. -/
def parse_events_from_response (data : Value) : Except String (List Value) :=
  match data with
  | .obj kvs =>
    if (pyGet? kvs "events").isSome then pyIterate (pyGetD kvs "events" (.arr []))
    else .ok []
  | .arr xs => .ok xs
  | _ => .ok []

/-- A completed upstream response: status code and parsed body (the body is
the response text as `Value.s` when JSON parsing failed, mirroring the
`try: data = r.json() except: data = r.text` at every call site). -/
structure UpResp where
  status : ℕ
  body : Value

/-- One upstream page request issued by the audit endpoint, as observed by
the model: the path queried and the `offset`/`limit` parameters sent. -/
structure PageReq where
  path : String
  offset : ℕ
  limit : ℕ
  deriving DecidableEq

/-- The `{"error": ...}` JSON envelope together with its HTTP status code. -/
structure ErrorEnvelope where
  error : String
  status : ℕ
  deriving DecidableEq

/-- How the path-discovery loop ends: a working path (with the parsed body of
its first-page response), exhaustion (break on non-404 or list end, with the
last failure's status and sanitized message), or a raised transport
exception (caught by the endpoint's outer handler). -/
inductive DiscoverOutcome where
  | found (path : String) (body : Value)
  | exhausted (lastStatus : Option ℕ) (lastErr : Option String)
  | transport (e : String)

/-- Path-discovery loop of the audit endpoint (lines 810-825): try each path
in order with the first page's parameters; stop at the first success (keeping
its body as page one) or the first non-404 status; a 404 advances to the next
path.  Also returns the list of paths actually requested. -/
def discoverPath (fetch1 : String → Except String UpResp) :
    List String → Option ℕ → Option String → List String × DiscoverOutcome
  | [], lastStatus, lastErr => ([], .exhausted lastStatus lastErr)
  | p :: rest, lastStatus, lastErr =>
    match fetch1 p with
    | .error e => ([p], .transport e)
    | .ok r =>
      if respOkStatus r.status then ([p], .found p r.body)
      else
        let msg := sanitize_upstream_error r.status r.body
        if r.status ≠ 404 then ([p], .exhausted (some r.status) (some msg))
        else
          let next := discoverPath fetch1 rest (some r.status) (some msg)
          (p :: next.1, next.2)

/-- The error envelope built when no path works (lines 827-831):
`last_err or f"Audit API returned {last_status}"`, a hint appended for plain
404s, HTTP status `last_status or 502`. -/
def discoveryFailureEnvelope (lastStatus : Option ℕ) (lastErr : Option String) :
    ErrorEnvelope :=
  let statusStr := match lastStatus with | some st => toString st | none => "None"
  let errMsg0 := match lastErr with
    | some msg => if msg = "" then "Audit API returned " ++ statusStr else msg
    | none => "Audit API returned " ++ statusStr
  let errMsg :=
    if lastStatus == some 404 && !strContains errMsg0 "may not be available" then
      errMsg0 ++ " Try AUDIT_API_PATH env or contact your admin."
    else errMsg0
  ⟨errMsg, match lastStatus with
    | some st => if st = 0 then 502 else st
    | none => 502⟩

/-- The pagination while-loop of the audit endpoint (lines 860-882), entered
after the first page with `offset = page_limit`: while the client asked for
more than one page, fewer events than requested have accumulated, the
previous page was full and the safety cap is not reached, fetch the next page
of `AUDIT_API_MAX_LIMIT` records.  A non-2xx page breaks out keeping partial
results; a transport, parse or normalization error propagates to the
endpoint's outer `except` (502 envelope). -/
def pageLoop (fetch2 : ℕ → Except String UpResp) (path : String)
    (requested : ℕ) (events : List Canon) (lastRaw offset : ℕ)
    (log : List PageReq) : List PageReq × Except ErrorEnvelope (List Canon) :=
  if h : AUDIT_API_MAX_LIMIT < requested ∧ events.length < requested
      ∧ AUDIT_API_MAX_LIMIT ≤ lastRaw ∧ offset < AUDIT_PAGINATION_CAP then
    let log' := log ++ [⟨path, offset, AUDIT_API_MAX_LIMIT⟩]
    match fetch2 offset with
    | .error e => (log', .error ⟨e, 502⟩)
    | .ok r =>
      if !respOkStatus r.status then (log', .ok events)
      else
        match parse_events_from_response r.body with
        | .error e => (log', .error ⟨e, 502⟩)
        | .ok raws =>
          match normalizeRaws raws with
          | .error e => (log', .error ⟨e, 502⟩)
          | .ok es =>
            if raws.length < AUDIT_API_MAX_LIMIT then (log', .ok (events ++ es))
            else
              pageLoop fetch2 path requested (events ++ es) raws.length
                (offset + AUDIT_API_MAX_LIMIT) log'
  else (log, .ok events)
termination_by AUDIT_PAGINATION_CAP - offset
decreasing_by
  simp only [AUDIT_API_MAX_LIMIT, AUDIT_PAGINATION_CAP] at h ⊢
  omega

/-- `max(0, min(int(params.get("limit", AUDIT_API_MAX_LIMIT)),
AUDIT_PAGINATION_CAP))`: the clamped requested limit (`none` models an absent
or unparseable `limit` parameter, which falls back to the per-page max). -/
def requestedLimit (limitParam : Option ℤ) : ℕ :=
  (max 0 (min (limitParam.getD (AUDIT_API_MAX_LIMIT : ℤ))
    (AUDIT_PAGINATION_CAP : ℤ))).toNat

/-- `min(requested_limit, AUDIT_API_MAX_LIMIT)`: the first page's size. -/
def pageLimitOf (limitParam : Option ℤ) : ℕ :=
  min (requestedLimit limitParam) AUDIT_API_MAX_LIMIT

/-- Fetch-and-paginate core of `GET /api/audit` (lines 789-882): limit
parsing (`limitParam = none` models an absent or unparseable `limit` query
parameter) and clamping, path discovery with the first page's parameters,
first-page parsing/normalization, then the pagination loop.  `offset0` is
the client's `offset` parameter (default 0).  The first component is the
trace of upstream page requests issued, in order. -/
def auditCore (limitParam : Option ℤ) (offset0 : ℕ) (paths : List String)
    (fetch : String → ℕ → ℕ → Except String UpResp) :
    List PageReq × Except ErrorEnvelope (List Canon) :=
  let requested : ℕ := requestedLimit limitParam
  let pageLimit := pageLimitOf limitParam
  let disc := discoverPath (fun p => fetch p offset0 pageLimit) paths none none
  let discLog := disc.1.map (fun p => (⟨p, offset0, pageLimit⟩ : PageReq))
  match disc.2 with
  | .transport e => (discLog, .error ⟨e, 502⟩)
  | .exhausted lastStatus lastErr =>
    (discLog, .error (discoveryFailureEnvelope lastStatus lastErr))
  | .found wp body =>
    match parse_events_from_response body with
    | .error e => (discLog, .error ⟨e, 502⟩)
    | .ok raws =>
      match normalizeRaws raws with
      | .error e => (discLog, .error ⟨e, 502⟩)
      | .ok es =>
        pageLoop (fun off => fetch wp off AUDIT_API_MAX_LIMIT) wp requested
          es raws.length pageLimit discLog

/-- The full `GET /api/audit` handler: fetch + paginate, then bulk
Control-Center enrichment, then runs, then jobs enrichment (lines 884-890).
A jobs-stage exception reaches the endpoint's outer `except` (502). -/
def auditHandler (limitParam : Option ℤ) (offset0 : ℕ) (paths : List String)
    (fetch : String → ℕ → ℕ → Except String UpResp) (base : Option String)
    (hwOutcome runsOutcome : FetchOutcome)
    (fetchRun fetchJob fetchJobRuntime : String → Option Value) :
    List PageReq × Except ErrorEnvelope (List Canon) :=
  let core := auditCore limitParam offset0 paths fetch
  (core.1, core.2.bind (fun evs =>
    let evs1 := enrich_events_bulk_from_control_center evs base hwOutcome runsOutcome
    let evs2 := enrich_events_with_runs evs1 base fetchRun
    match enrich_events_with_jobs evs2 base fetchJob fetchJobRuntime with
    | .ok evs3 => .ok evs3
    | .error e => .error ⟨e, 502⟩))

/-! ## Generic properties of the `_fill` discipline -/

/-- The effect of one `_fill` on the single field it targets. -/
def fillStep (s v : Value) : Value :=
  if !blankGet s then s else if blankVal v then s else v

/-- The values a `_fill` sequence offers to one particular field, in order. -/
def opsFor (f : CField) (ops : List (CField × Value)) : List Value :=
  ops.filterMap (fun p => if p.1 = f then some p.2 else none)

/-- The all-`None` canonical event (used as the out-of-range default for
positional indexing in list-level statements). -/
def cNull : Canon := fun _ => Value.null

theorem fill_apply (e : Canon) (k : CField) (v : Value) (f : CField) :
    fill e k v f = if k = f then fillStep (e f) v else e f := by
  unfold fill fillStep
  by_cases hk : k = f
  · subst hk
    cases h1 : blankGet (e k) <;> cases h2 : blankVal v <;>
      simp [h1, h2, Function.update]
  · have hk' : f ≠ k := fun h => hk h.symm
    cases h1 : blankGet (e k) <;> cases h2 : blankVal v <;>
      simp [h1, h2, Function.update, hk, hk']

theorem applyFills_apply (ops : List (CField × Value)) (e : Canon) (f : CField) :
    applyFills e ops f = (opsFor f ops).foldl fillStep (e f) := by
  induction ops generalizing e with
  | nil => rfl
  | cons p ops ih =>
    obtain ⟨k, v⟩ := p
    simp only [applyFills]
    rw [ih, fill_apply]
    by_cases hk : k = f <;> simp [opsFor, List.filterMap_cons, hk]

theorem foldl_fillStep_of_not_blank (vs : List Value) (s : Value)
    (h : blankGet s = false) : vs.foldl fillStep s = s := by
  induction vs with
  | nil => rfl
  | cons v vs ih => simpa [fillStep, h] using ih

theorem foldl_fillStep_written (vs : List Value) (s : Value) :
    vs.foldl fillStep s = s ∨ blankVal (vs.foldl fillStep s) = false := by
  induction vs generalizing s with
  | nil => exact Or.inl rfl
  | cons v vs ih =>
    rw [List.foldl_cons]
    cases h1 : blankGet s
    · simpa [fillStep, h1] using ih s
    · cases h2 : blankVal v
      · have hs : fillStep s v = v := by simp [fillStep, h1, h2]
        rw [hs]
        rcases ih v with h | h
        · rw [h]; exact Or.inr h2
        · exact Or.inr h
      · simpa [fillStep, h1, h2] using ih s

theorem blankGet_not_blankVal {v : Value} (h1 : blankGet v = true)
    (h2 : blankVal v = false) : v = .s "Unknown" := by
  cases v <;> simp_all [blankGet, blankVal]

theorem fillStep_of_not_blank {s : Value} (v : Value) (h : blankGet s = false) :
    fillStep s v = s := by
  simp [fillStep, h]

theorem fillStep_idem (s v : Value) : fillStep (fillStep s v) v = fillStep s v := by
  cases h1 : blankGet s
  · simp [fillStep, h1]
  · cases h2 : blankVal v
    · have hs : fillStep s v = v := by simp [fillStep, h1, h2]
      rw [hs]
      cases h3 : blankGet v <;> simp [fillStep, h2, h3]
    · simp [fillStep, h1, h2]

theorem foldl_fillStep_blank (vs : List Value) (s : Value)
    (h : blankGet (vs.foldl fillStep s) = true) :
    vs.foldl fillStep s = s ∨ vs.foldl fillStep s = .s "Unknown" := by
  induction vs generalizing s with
  | nil => exact Or.inl rfl
  | cons v vs ih =>
    rw [List.foldl_cons] at h ⊢
    rcases ih (fillStep s v) h with h1 | h1
    · rw [h1] at h ⊢
      cases b1 : blankGet s
      · simp [fillStep, b1]
      · cases b2 : blankVal v
        · have hs : fillStep s v = v := by simp [fillStep, b1, b2]
          rw [hs] at h ⊢
          exact Or.inr (blankGet_not_blankVal h b2)
        · simp [fillStep, b1, b2]
    · exact Or.inr h1

theorem foldl_fillStep_idem (vs : List Value) (s : Value) :
    vs.foldl fillStep (vs.foldl fillStep s) = vs.foldl fillStep s := by
  induction vs generalizing s with
  | nil => rfl
  | cons v vs ih =>
    rw [List.foldl_cons, List.foldl_cons]
    have key : fillStep (vs.foldl fillStep (fillStep s v)) v
        = vs.foldl fillStep (fillStep s v) := by
      cases hb : blankGet (vs.foldl fillStep (fillStep s v))
      · exact fillStep_of_not_blank v hb
      · rcases foldl_fillStep_blank vs (fillStep s v) hb with h1 | h1
        · rw [h1]; exact fillStep_idem s v
        · rw [h1] at hb ⊢
          cases h2 : blankVal v
          · -- v would be written over "Unknown": show v = "Unknown" itself
            cases bs : blankGet s
            · have hs : fillStep s v = s := fillStep_of_not_blank v bs
              rw [hs, foldl_fillStep_of_not_blank vs s bs] at h1
              rw [h1] at bs
              simp [blankGet] at bs
            · have hs : fillStep s v = v := by simp [fillStep, bs, h2]
              rw [hs] at h1
              cases bv : blankGet v
              · rw [foldl_fillStep_of_not_blank vs v bv] at h1
                rw [h1] at bv
                simp [blankGet] at bv
              · have hv : v = .s "Unknown" := blankGet_not_blankVal bv h2
                rw [hv]
                rfl
          · simp [fillStep, hb, h2]
    rw [key]
    exact ih (fillStep s v)

theorem applyFills_preserves_nonblank (ops : List (CField × Value)) (e : Canon)
    (f : CField) (h : blankGet (e f) = false) : applyFills e ops f = e f := by
  rw [applyFills_apply]
  exact foldl_fillStep_of_not_blank _ _ h

theorem applyFills_changed_nonblank (ops : List (CField × Value)) (e : Canon)
    (f : CField) (h : applyFills e ops f ≠ e f) :
    blankVal (applyFills e ops f) = false := by
  rw [applyFills_apply] at h ⊢
  rcases foldl_fillStep_written (opsFor f ops) (e f) with h1 | h1
  · exact absurd h1 h
  · exact h1

theorem applyFills_idem (ops : List (CField × Value)) (e : Canon) :
    applyFills (applyFills e ops) ops = applyFills e ops := by
  funext f
  rw [applyFills_apply, applyFills_apply]
  exact foldl_fillStep_idem _ _

theorem opsFor_eq_nil {f : CField} {ops : List (CField × Value)}
    (h : ∀ p ∈ ops, p.1 ≠ f) : opsFor f ops = [] := by
  unfold opsFor
  rw [List.filterMap_eq_nil]
  intro p hp
  simp [h p hp]

theorem applyFills_not_targeted {ops : List (CField × Value)} (e : Canon)
    {f : CField} (h : ∀ p ∈ ops, p.1 ≠ f) : applyFills e ops f = e f := by
  rw [applyFills_apply, opsFor_eq_nil h]
  rfl

/-! ### The common shape of the three per-event fill phases

Each stage looks up a fill-op list from one key field of the event and
applies it; the lemmas below are proved once against this shape and
transported to the stage functions through definitional bridge lemmas. -/

/-- Look up a fill-op list from the value of `key` and apply it. -/
def fillPhase (key : CField) (lu : Value → Option (List (CField × Value)))
    (e : Canon) : Canon :=
  match lu (e key) with
  | some ops => applyFills e ops
  | none => e

theorem fillPhase_preserve (key : CField) (lu) (e : Canon) (f : CField)
    (h : blankGet (e f) = false) : fillPhase key lu e f = e f := by
  unfold fillPhase
  cases lu (e key) with
  | none => rfl
  | some ops => exact applyFills_preserves_nonblank ops e f h

theorem fillPhase_changed (key : CField) (lu) (e : Canon) (f : CField)
    (h : fillPhase key lu e f ≠ e f) :
    blankVal (fillPhase key lu e f) = false := by
  unfold fillPhase at h ⊢
  cases hl : lu (e key) with
  | none => rw [hl] at h; exact absurd rfl h
  | some ops => rw [hl] at h; exact applyFills_changed_nonblank ops e f h

theorem fillPhase_untargeted (key : CField) (lu) (e : Canon) (f : CField)
    (hnk : ∀ v ops, lu v = some ops → ∀ p ∈ ops, p.1 ≠ f) :
    fillPhase key lu e f = e f := by
  unfold fillPhase
  cases hl : lu (e key) with
  | none => rfl
  | some ops => exact applyFills_not_targeted e (hnk _ ops hl)

theorem fillPhase_def (key : CField) (lu) (e : Canon) :
    fillPhase key lu e =
      match lu (e key) with
      | some ops => applyFills e ops
      | none => e := rfl

theorem fillPhase_idem (key : CField) (lu) (e : Canon)
    (hnk : ∀ v ops, lu v = some ops → ∀ p ∈ ops, p.1 ≠ key) :
    fillPhase key lu (fillPhase key lu e) = fillPhase key lu e := by
  have hkey : fillPhase key lu e key = e key := fillPhase_untargeted key lu e key hnk
  cases hl : lu (e key) with
  | none =>
    have h1 : fillPhase key lu e = e := by rw [fillPhase_def, hl]
    rw [h1]
    exact h1
  | some ops =>
    have h1 : fillPhase key lu e = applyFills e ops := by rw [fillPhase_def, hl]
    have h2 : fillPhase key lu (fillPhase key lu e)
        = applyFills (fillPhase key lu e) ops := by
      rw [fillPhase_def (e := fillPhase key lu e), hkey, hl]
    rw [h2, h1]
    exact applyFills_idem ops e

/-- The per-event lookup of the runs stage, as a `fillPhase` lookup. -/
def runsLookup (tbl : List (String × Value)) (v : Value) :
    Option (List (CField × Value)) :=
  match v with
  | .s rid =>
    match pyGet? tbl rid with
    | some rd =>
      if rd.truthy then
        match rd with
        | .obj rdD => some (runFillOps rdD)
        | _ => none
      else none
    | none => none
  | _ => none

theorem enrichOneWithRuns_eq (tbl : List (String × Value)) (e : Canon) :
    enrichOneWithRuns tbl e = fillPhase .runId (runsLookup tbl) e := by
  unfold enrichOneWithRuns fillPhase runsLookup
  cases hv : e .runId <;> try rfl
  case s rid =>
    cases hg : pyGet? tbl rid <;> simp only [hg] <;> try rfl
    case some rd =>
      cases ht : rd.truthy <;> cases rd <;> simp_all

/-- The per-event lookup of the Control-Center stage. -/
def ccLookup (tbl hwNames : List (Value × Value)) (v : Value) :
    Option (List (CField × Value)) :=
  match v with
  | .s rid =>
    match pyVDictGet tbl (.s (pyStrip rid)) with
    | some run =>
      if run.truthy then
        match run with
        | .obj rD => some (ccFillOps rD hwNames)
        | _ => none
      else none
    | none => none
  | _ => none

theorem enrichOneFromCC_eq (tbl hwNames : List (Value × Value)) (e : Canon) :
    enrichOneFromCC tbl hwNames e = fillPhase .runId (ccLookup tbl hwNames) e := by
  unfold enrichOneFromCC fillPhase ccLookup
  cases hv : e .runId <;> try rfl
  case s rid =>
    cases hg : pyVDictGet tbl (.s (pyStrip rid)) <;> simp only [hg] <;> try rfl
    case some run =>
      cases ht : run.truthy <;> cases run <;> simp_all

/-- The per-event lookup of the jobs stage (the defined part: a truthy
non-string `jobId` raises instead). -/
def jobsLookup (tbl : List (String × Value)) (v : Value) :
    Option (List (CField × Value)) :=
  match v.pyOr (.s "") with
  | .s jid0 =>
    if pyStrip jid0 = "" then none
    else
      match pyGet? tbl (pyStrip jid0) with
      | some job =>
        if job.truthy then
          match job with
          | .obj jobD => some (jobFillOps jobD)
          | _ => none
        else none
      | none => none
  | _ => none

theorem enrichOneWithJobs_eq (tbl : List (String × Value)) (e : Canon) :
    enrichOneWithJobs tbl e =
      match (e .jobId).pyOr (.s "") with
      | .s _ => .ok (fillPhase .jobId (jobsLookup tbl) e)
      | _ => .error "AttributeError: object has no attribute strip" := by
  unfold enrichOneWithJobs fillPhase jobsLookup
  cases hv : (e .jobId).pyOr (.s "") <;> try rfl
  case s jid0 =>
    by_cases hz : pyStrip jid0 = ""
    · simp [hz]
    · cases hg : pyGet? tbl (pyStrip jid0) with
      | none => simp only [hz, if_false, hg]
      | some job =>
        simp only [hz, if_false, hg]
        cases ht : job.truthy <;> cases job <;> simp_all

/-! ### The fill-op lists never touch the key fields they are looked up by -/

theorem runFillOps_no_keys (rd : List (String × Value)) :
    ∀ p ∈ runFillOps rd, p.1 ≠ CField.runId ∧ p.1 ≠ CField.jobId
      ∧ p.1 ≠ CField.timestamp := by
  intro p hp
  simp only [runFillOps, List.mem_cons, List.not_mem_nil, or_false] at hp
  rcases hp with h | h | h | h | h | h | h | h <;> subst h <;>
    exact ⟨by simp, by simp, by simp⟩

theorem ccFillOps_no_keys (rd : List (String × Value)) (hw : List (Value × Value)) :
    ∀ p ∈ ccFillOps rd hw, p.1 ≠ CField.runId ∧ p.1 ≠ CField.jobId
      ∧ p.1 ≠ CField.timestamp := by
  intro p hp
  unfold ccFillOps at hp
  simp only [List.mem_append, List.mem_cons, List.not_mem_nil, or_false,
    or_assoc] at hp
  rcases hp with h | h | h | h | h
  all_goals try (repeat' split at h)
  all_goals try simp only [List.mem_cons, List.not_mem_nil, or_false] at h
  all_goals try (rcases h with h | h)
  all_goals try (subst h)
  all_goals exact ⟨by simp, by simp, by simp⟩

theorem jobFillOps_no_keys (job : List (String × Value)) :
    ∀ p ∈ jobFillOps job, p.1 ≠ CField.runId ∧ p.1 ≠ CField.jobId
      ∧ p.1 ≠ CField.timestamp := by
  intro p hp
  unfold jobFillOps at hp
  simp only [List.mem_append, List.mem_cons, List.not_mem_nil, or_false,
    or_assoc] at hp
  rcases hp with h | h | h | h | h | h | h | h | h | h | h
  all_goals try (repeat' split at h)
  all_goals try simp only [List.mem_cons, List.not_mem_nil, or_false] at h
  all_goals try (rcases h with h | h)
  all_goals try (subst h)
  all_goals exact ⟨by simp, by simp, by simp⟩

theorem runsLookup_no_keys (tbl : List (String × Value)) :
    ∀ v ops, runsLookup tbl v = some ops → ∀ p ∈ ops,
      p.1 ≠ CField.runId ∧ p.1 ≠ CField.jobId ∧ p.1 ≠ CField.timestamp := by
  intro v ops h
  unfold runsLookup at h
  repeat' split at h
  all_goals cases h
  all_goals intro p hp
  all_goals exact runFillOps_no_keys _ p hp

theorem ccLookup_no_keys (tbl hwNames : List (Value × Value)) :
    ∀ v ops, ccLookup tbl hwNames v = some ops → ∀ p ∈ ops,
      p.1 ≠ CField.runId ∧ p.1 ≠ CField.jobId ∧ p.1 ≠ CField.timestamp := by
  intro v ops h
  unfold ccLookup at h
  repeat' split at h
  all_goals cases h
  all_goals intro p hp
  all_goals exact ccFillOps_no_keys _ _ p hp

theorem jobsLookup_no_keys (tbl : List (String × Value)) :
    ∀ v ops, jobsLookup tbl v = some ops → ∀ p ∈ ops,
      p.1 ≠ CField.runId ∧ p.1 ≠ CField.jobId ∧ p.1 ≠ CField.timestamp := by
  intro v ops h
  unfold jobsLookup at h
  repeat' split at h
  all_goals cases h
  all_goals intro p hp
  all_goals exact jobFillOps_no_keys _ p hp

/-! ### Positional access and `mapM` helpers -/

theorem map_getD (g : Canon → Canon) (evs : List Canon) (i : ℕ)
    (hi : i < evs.length) : (evs.map g).getD i cNull = g (evs.getD i cNull) := by
  induction evs generalizing i with
  | nil => simp at hi
  | cons e evs ih =>
    cases i with
    | zero => rfl
    | succ n => exact ih n (by simpa using hi)

theorem mapM_ok_forall₂ (g : Canon → Except String Canon) :
    ∀ (evs evs' : List Canon), evs.mapM g = .ok evs' →
      List.Forall₂ (fun e e' => g e = .ok e') evs evs' := by
  intro evs
  induction evs with
  | nil =>
    intro evs' h
    simp only [List.mapM_nil] at h
    cases h
    exact List.Forall₂.nil
  | cons e evs ih =>
    intro evs' h
    rw [List.mapM_cons] at h
    cases hge : g e with
    | error err => rw [hge] at h; cases h
    | ok e1 =>
      rw [hge] at h
      cases hm : evs.mapM g with
      | error err => rw [hm] at h; cases h
      | ok tail =>
        rw [hm] at h
        cases h
        exact List.Forall₂.cons hge (ih tail hm)

theorem forall₂_getD {R : Canon → Canon → Prop} :
    ∀ {evs evs' : List Canon}, List.Forall₂ R evs evs' →
      ∀ i, i < evs.length → R (evs.getD i cNull) (evs'.getD i cNull) := by
  intro evs evs' h
  induction h with
  | nil => intro i hi; simp at hi
  | cons hr htail ih =>
    intro i hi
    cases i with
    | zero => exact hr
    | succ n => exact ih n (by simpa using hi)

theorem mapM_idem (g : Canon → Except String Canon)
    (hg : ∀ e e', g e = .ok e' → g e' = .ok e') :
    ∀ (evs evs' : List Canon), evs.mapM g = .ok evs' → evs'.mapM g = .ok evs' := by
  intro evs
  induction evs with
  | nil =>
    intro evs' h
    simp only [List.mapM_nil] at h
    cases h
    rfl
  | cons e evs ih =>
    intro evs' h
    rw [List.mapM_cons] at h
    cases hge : g e with
    | error err => rw [hge] at h; cases h
    | ok e1 =>
      rw [hge] at h
      cases hm : evs.mapM g with
      | error err => rw [hm] at h; cases h
      | ok tail =>
        rw [hm] at h
        cases h
        rw [List.mapM_cons, hg e e1 hge]
        show (tail.mapM g >>= fun xs => pure (e1 :: xs)) = _
        rw [ih tail hm]
        rfl

/-! ### Per-event consequences for the three stages -/

theorem enrichOneWithRuns_preserve (tbl : List (String × Value)) (e : Canon)
    (f : CField) (h : blankGet (e f) = false) :
    enrichOneWithRuns tbl e f = e f := by
  rw [enrichOneWithRuns_eq]
  exact fillPhase_preserve _ _ _ _ h

theorem enrichOneWithRuns_changed (tbl : List (String × Value)) (e : Canon)
    (f : CField) (h : enrichOneWithRuns tbl e f ≠ e f) :
    blankVal (enrichOneWithRuns tbl e f) = false := by
  rw [enrichOneWithRuns_eq] at h ⊢
  exact fillPhase_changed _ _ _ _ h

theorem enrichOneWithRuns_runId (tbl : List (String × Value)) (e : Canon) :
    enrichOneWithRuns tbl e .runId = e .runId := by
  rw [enrichOneWithRuns_eq]
  exact fillPhase_untargeted _ _ _ _
    (fun v ops hl p hp => (runsLookup_no_keys tbl v ops hl p hp).1)

theorem enrichOneWithRuns_idem (tbl : List (String × Value)) (e : Canon) :
    enrichOneWithRuns tbl (enrichOneWithRuns tbl e) = enrichOneWithRuns tbl e := by
  simp only [enrichOneWithRuns_eq]
  exact fillPhase_idem _ _ _
    (fun v ops hl p hp => (runsLookup_no_keys tbl v ops hl p hp).1)

theorem enrichOneFromCC_preserve (tbl hwNames : List (Value × Value)) (e : Canon)
    (f : CField) (h : blankGet (e f) = false) :
    enrichOneFromCC tbl hwNames e f = e f := by
  rw [enrichOneFromCC_eq]
  exact fillPhase_preserve _ _ _ _ h

theorem enrichOneFromCC_changed (tbl hwNames : List (Value × Value)) (e : Canon)
    (f : CField) (h : enrichOneFromCC tbl hwNames e f ≠ e f) :
    blankVal (enrichOneFromCC tbl hwNames e f) = false := by
  rw [enrichOneFromCC_eq] at h ⊢
  exact fillPhase_changed _ _ _ _ h

theorem enrichOneFromCC_runId (tbl hwNames : List (Value × Value)) (e : Canon) :
    enrichOneFromCC tbl hwNames e .runId = e .runId := by
  rw [enrichOneFromCC_eq]
  exact fillPhase_untargeted _ _ _ _
    (fun v ops hl p hp => (ccLookup_no_keys tbl hwNames v ops hl p hp).1)

theorem enrichOneFromCC_timestamp (tbl hwNames : List (Value × Value)) (e : Canon) :
    enrichOneFromCC tbl hwNames e .timestamp = e .timestamp := by
  rw [enrichOneFromCC_eq]
  exact fillPhase_untargeted _ _ _ _
    (fun v ops hl p hp => (ccLookup_no_keys tbl hwNames v ops hl p hp).2.2)

theorem enrichOneFromCC_idem (tbl hwNames : List (Value × Value)) (e : Canon) :
    enrichOneFromCC tbl hwNames (enrichOneFromCC tbl hwNames e)
      = enrichOneFromCC tbl hwNames e := by
  simp only [enrichOneFromCC_eq]
  exact fillPhase_idem _ _ _
    (fun v ops hl p hp => (ccLookup_no_keys tbl hwNames v ops hl p hp).1)

/-- Projections of the no-key lemmas in the shape `fillPhase_untargeted` needs. -/
theorem jobsLookup_not_jobId (tbl : List (String × Value)) :
    ∀ v ops, jobsLookup tbl v = some ops → ∀ p ∈ ops, p.1 ≠ CField.jobId :=
  fun v ops hl p hp => (jobsLookup_no_keys tbl v ops hl p hp).2.1

theorem enrichOneWithJobs_preserve (tbl : List (String × Value)) (e e' : Canon)
    (f : CField) (hok : enrichOneWithJobs tbl e = .ok e')
    (h : blankGet (e f) = false) : e' f = e f := by
  rw [enrichOneWithJobs_eq] at hok
  cases hv : (e .jobId).pyOr (.s "") <;> simp only [hv] at hok
  all_goals cases hok
  all_goals exact fillPhase_preserve _ _ _ _ h

theorem enrichOneWithJobs_changed (tbl : List (String × Value)) (e e' : Canon)
    (f : CField) (hok : enrichOneWithJobs tbl e = .ok e')
    (h : e' f ≠ e f) : blankVal (e' f) = false := by
  rw [enrichOneWithJobs_eq] at hok
  cases hv : (e .jobId).pyOr (.s "") <;> simp only [hv] at hok
  all_goals cases hok
  all_goals exact fillPhase_changed _ _ _ _ h

theorem enrichOneWithJobs_jobId (tbl : List (String × Value)) (e e' : Canon)
    (hok : enrichOneWithJobs tbl e = .ok e') : e' .jobId = e .jobId := by
  rw [enrichOneWithJobs_eq] at hok
  cases hv : (e .jobId).pyOr (.s "") <;> simp only [hv] at hok
  all_goals cases hok
  all_goals exact fillPhase_untargeted _ _ _ _ (jobsLookup_not_jobId tbl)

theorem enrichOneWithJobs_idem (tbl : List (String × Value)) (e e' : Canon)
    (hok : enrichOneWithJobs tbl e = .ok e') :
    enrichOneWithJobs tbl e' = .ok e' := by
  have hjid : e' .jobId = e .jobId := enrichOneWithJobs_jobId tbl e e' hok
  rw [enrichOneWithJobs_eq] at hok
  rw [enrichOneWithJobs_eq, hjid]
  cases hv : (e .jobId).pyOr (.s "") <;> simp only [hv] at hok ⊢
  all_goals cases hok
  all_goals rw [fillPhase_idem _ _ _ (jobsLookup_not_jobId tbl)]

/-! ### Stage shapes and collection congruences -/

theorem runs_stage_shape (events : List Canon) (base : Option String)
    (fetchRun : String → Option Value) :
    enrich_events_with_runs events base fetchRun = events
      ∨ ∃ tbl, enrich_events_with_runs events base fetchRun
          = events.map (enrichOneWithRuns tbl) := by
  simp only [enrich_events_with_runs]
  repeat' split
  all_goals first
    | exact Or.inl rfl
    | exact Or.inr ⟨_, rfl⟩

theorem cc_stage_shape (events : List Canon) (base : Option String)
    (hwOutcome runsOutcome : FetchOutcome) :
    enrich_events_bulk_from_control_center events base hwOutcome runsOutcome = events
      ∨ ∃ tbl hwNames, enrich_events_bulk_from_control_center events base hwOutcome runsOutcome
          = events.map (enrichOneFromCC tbl hwNames) := by
  simp only [enrich_events_bulk_from_control_center]
  repeat' split
  all_goals first
    | exact Or.inl rfl
    | exact Or.inr ⟨_, _, rfl⟩

theorem jobs_stage_shape (events : List Canon) (base : Option String)
    (fetchJob fetchJobRuntime : String → Option Value) :
    enrich_events_with_jobs events base fetchJob fetchJobRuntime = .ok events
      ∨ ∃ tbl, enrich_events_with_jobs events base fetchJob fetchJobRuntime
          = events.mapM (enrichOneWithJobs tbl) := by
  simp only [enrich_events_with_jobs]
  repeat' split
  all_goals first
    | exact Or.inl rfl
    | exact Or.inr ⟨_, rfl⟩

theorem collectRunIds_map (g : Canon → Canon) (hg : ∀ e, g e .runId = e .runId) :
    ∀ (evs : List Canon) (acc : List String),
      collectRunIds (evs.map g) acc = collectRunIds evs acc := by
  intro evs
  induction evs with
  | nil => intro acc; rfl
  | cons e evs ih =>
    intro acc
    cases hv : e .runId
    all_goals simp only [List.map_cons, collectRunIds, hg e, hv]
    all_goals try exact ih acc
    case s rid =>
      by_cases h0 : pyStrip rid = ""
      · rw [if_pos h0, if_pos h0]; exact ih acc
      · rw [if_neg h0, if_neg h0]
        by_cases h1 : pyLower (pyStrip rid) = "unknown"
        · rw [if_pos h1, if_pos h1]; exact ih acc
        · rw [if_neg h1, if_neg h1]
          by_cases h2 : acc.contains (pyStrip rid) = true
          · rw [if_pos h2, if_pos h2]; exact ih acc
          · rw [if_neg h2, if_neg h2]
            by_cases h3 : RUNS_ENRICHMENT_MAX_RUNS ≤ (acc ++ [pyStrip rid]).length
            · rw [if_pos h3, if_pos h3]
            · rw [if_neg h3, if_neg h3]; exact ih (acc ++ [pyStrip rid])

theorem collectJobIds_congr :
    ∀ {evs evs' : List Canon},
      List.Forall₂ (fun e e' => e' .jobId = e .jobId) evs evs' →
      ∀ acc, collectJobIds evs' acc = collectJobIds evs acc := by
  intro evs evs' h
  induction h with
  | nil => intro acc; rfl
  | @cons a b as bs hab _ ih =>
    intro acc
    cases hv : (a .jobId).pyOr (.s "")
    all_goals simp only [collectJobIds, hab, hv]
    all_goals exact if_congr Iff.rfl rfl (ih _)

theorem filter_isEmpty_congr (p : Canon → Bool) (g : Canon → Canon)
    (hg : ∀ e, p (g e) = p e) :
    ∀ evs : List Canon,
      ((evs.map g).filter p).isEmpty = (evs.filter p).isEmpty := by
  intro evs
  induction evs with
  | nil => rfl
  | cons e evs ih =>
    simp only [List.map_cons, List.filter_cons, hg e]
    cases p e <;> simp [ih]

/-! ### Stage-level idempotence -/

theorem runs_stage_idem (events : List Canon) (base : Option String)
    (fetchRun : String → Option Value) :
    enrich_events_with_runs (enrich_events_with_runs events base fetchRun)
        base fetchRun
      = enrich_events_with_runs events base fetchRun := by
  cases base with
  | none =>
    have h : ∀ evs, enrich_events_with_runs evs none fetchRun = evs := by
      intro evs
      unfold enrich_events_with_runs
      simp [RUNS_ENRICHMENT_ENABLED]
    rw [h, h]
  | some b =>
    cases h1 : (collectRunIds events []).isEmpty
    case true =>
      have h : enrich_events_with_runs events (some b) fetchRun = events := by
        unfold enrich_events_with_runs
        simp [RUNS_ENRICHMENT_ENABLED, h1]
      rw [h]
      exact h
    case false =>
      cases h2 : (resolveRuns fetchRun (collectRunIds events [])).isEmpty
      case true =>
        have h : enrich_events_with_runs events (some b) fetchRun = events := by
          unfold enrich_events_with_runs
          simp [RUNS_ENRICHMENT_ENABLED, h1, h2]
        rw [h]
        exact h
      case false =>
        have hmap : enrich_events_with_runs events (some b) fetchRun
            = events.map (enrichOneWithRuns
                (resolveRuns fetchRun (collectRunIds events []))) := by
          unfold enrich_events_with_runs
          simp [RUNS_ENRICHMENT_ENABLED, h1, h2]
        have hcol : collectRunIds (events.map (enrichOneWithRuns
            (resolveRuns fetchRun (collectRunIds events [])))) []
              = collectRunIds events [] :=
          collectRunIds_map _ (enrichOneWithRuns_runId _) events []
        have hmap2 : enrich_events_with_runs (events.map (enrichOneWithRuns
            (resolveRuns fetchRun (collectRunIds events [])))) (some b) fetchRun
              = (events.map (enrichOneWithRuns
                  (resolveRuns fetchRun (collectRunIds events [])))).map
                    (enrichOneWithRuns
                      (resolveRuns fetchRun (collectRunIds events []))) := by
          unfold enrich_events_with_runs
          simp [RUNS_ENRICHMENT_ENABLED, hcol, h1, h2]
        rw [hmap, hmap2, List.map_map]
        apply List.map_congr_left
        intro e _
        exact enrichOneWithRuns_idem _ e

theorem cc_stage_idem (events : List Canon) (base : Option String)
    (hwOutcome runsOutcome : FetchOutcome) :
    enrich_events_bulk_from_control_center
        (enrich_events_bulk_from_control_center events base hwOutcome runsOutcome)
        base hwOutcome runsOutcome
      = enrich_events_bulk_from_control_center events base hwOutcome runsOutcome := by
  cases base with
  | none =>
    have h : ∀ evs,
        enrich_events_bulk_from_control_center evs none hwOutcome runsOutcome = evs := by
      intro evs
      unfold enrich_events_bulk_from_control_center
      simp [CC_ENRICHMENT_ENABLED]
    rw [h, h]
  | some b =>
    cases h1 : ((events.filter
        (fun e => ((e .timestamp).asNum?).isSome)).isEmpty)
    case true =>
      have h : enrich_events_bulk_from_control_center events (some b)
          hwOutcome runsOutcome = events := by
        unfold enrich_events_bulk_from_control_center
        simp [CC_ENRICHMENT_ENABLED, h1]
      rw [h]
      exact h
    case false =>
      cases runsOutcome with
      | transport msg =>
        have h : ∀ evs, enrich_events_bulk_from_control_center evs (some b)
            hwOutcome (.transport msg) = evs := by
          intro evs
          unfold enrich_events_bulk_from_control_center
          simp [CC_ENRICHMENT_ENABLED]
        rw [h, h]
      | resp status body =>
        cases hok : respOkStatus status
        case false =>
          have h : ∀ evs, enrich_events_bulk_from_control_center evs (some b)
              hwOutcome (.resp status body) = evs := by
            intro evs
            unfold enrich_events_bulk_from_control_center
            simp [CC_ENRICHMENT_ENABLED, hok]
          rw [h, h]
        case true =>
          cases h2 : (ccIndexRuns body).isEmpty
          case true =>
            have h : ∀ evs, enrich_events_bulk_from_control_center evs (some b)
                hwOutcome (.resp status body) = evs := by
              intro evs
              unfold enrich_events_bulk_from_control_center
              simp [CC_ENRICHMENT_ENABLED, hok, h2]
            rw [h, h]
          case false =>
            have hmap : enrich_events_bulk_from_control_center events (some b)
                hwOutcome (.resp status body)
                  = events.map (enrichOneFromCC (ccIndexRuns body)
                      (ccHwTierNames hwOutcome)) := by
              unfold enrich_events_bulk_from_control_center
              simp [CC_ENRICHMENT_ENABLED, h1, hok, h2]
            have hts : ((events.map (enrichOneFromCC (ccIndexRuns body)
                (ccHwTierNames hwOutcome))).filter
                  (fun e => ((e .timestamp).asNum?).isSome)).isEmpty = false := by
              rw [filter_isEmpty_congr _ _
                (fun e => by rw [enrichOneFromCC_timestamp])]
              exact h1
            have hmap2 : enrich_events_bulk_from_control_center
                (events.map (enrichOneFromCC (ccIndexRuns body)
                  (ccHwTierNames hwOutcome))) (some b) hwOutcome (.resp status body)
                  = (events.map (enrichOneFromCC (ccIndexRuns body)
                      (ccHwTierNames hwOutcome))).map
                        (enrichOneFromCC (ccIndexRuns body)
                          (ccHwTierNames hwOutcome)) := by
              unfold enrich_events_bulk_from_control_center
              simp [CC_ENRICHMENT_ENABLED, hts, hok, h2]
            rw [hmap, hmap2, List.map_map]
            apply List.map_congr_left
            intro e _
            exact enrichOneFromCC_idem _ _ e

theorem jobs_stage_idem (events : List Canon) (base : Option String)
    (fetchJob fetchJobRuntime : String → Option Value) (events' : List Canon)
    (hok : enrich_events_with_jobs events base fetchJob fetchJobRuntime
      = .ok events') :
    enrich_events_with_jobs events' base fetchJob fetchJobRuntime = .ok events' := by
  cases base with
  | none =>
    have h : ∀ evs, enrich_events_with_jobs evs none fetchJob fetchJobRuntime
        = .ok evs := by
      intro evs
      unfold enrich_events_with_jobs
      simp [JOBS_ENRICHMENT_ENABLED]
    rw [h] at hok
    cases hok
    exact h events
  | some b =>
    cases h1 : (collectJobIds events []).isEmpty
    case true =>
      have h : enrich_events_with_jobs events (some b) fetchJob fetchJobRuntime
          = .ok events := by
        unfold enrich_events_with_jobs
        simp [JOBS_ENRICHMENT_ENABLED, h1]
      rw [h] at hok
      cases hok
      exact h
    case false =>
      cases h2 : (resolveJobs fetchJob fetchJobRuntime
          (collectJobIds events [])).isEmpty
      case true =>
        have h : enrich_events_with_jobs events (some b) fetchJob fetchJobRuntime
            = .ok events := by
          unfold enrich_events_with_jobs
          simp [JOBS_ENRICHMENT_ENABLED, h1, h2]
        rw [h] at hok
        cases hok
        exact h
      case false =>
        have hmapM : enrich_events_with_jobs events (some b) fetchJob fetchJobRuntime
            = events.mapM (enrichOneWithJobs (resolveJobs fetchJob fetchJobRuntime
                (collectJobIds events []))) := by
          unfold enrich_events_with_jobs
          simp [JOBS_ENRICHMENT_ENABLED, h1, h2]
        rw [hmapM] at hok
        have hf2 := mapM_ok_forall₂ _ _ _ hok
        have hjid : List.Forall₂ (fun e e' => e' .jobId = e .jobId) events events' :=
          hf2.imp (fun a b hge => enrichOneWithJobs_jobId _ a b hge)
        have hcol : collectJobIds events' [] = collectJobIds events [] :=
          collectJobIds_congr hjid []
        have hmapM2 : enrich_events_with_jobs events' (some b) fetchJob fetchJobRuntime
            = events'.mapM (enrichOneWithJobs (resolveJobs fetchJob fetchJobRuntime
                (collectJobIds events []))) := by
          unfold enrich_events_with_jobs
          simp [JOBS_ENRICHMENT_ENABLED, hcol, h1, h2]
        rw [hmapM2]
        exact mapM_idem _ (fun e e' hge => enrichOneWithJobs_idem _ e e' hge)
          events events' hok

/-! ## Claim theorems -/

/-- C1: Fill-only-if-blank invariant.  For each enrichment stage
(Control-Center bulk, Runs per-ID, Jobs per-ID), every event position and
every canonical field: if the field's value before the stage is not `None`,
not `""` and not `"Unknown"`, its value after the stage is unchanged.  For
the jobs stage, whose fill loop can raise on a truthy non-string `jobId`,
the property is stated for every completed run of the stage. -/
theorem fill_only_if_blank_invariant :
    (∀ (events : List Canon) (base : Option String)
        (hwOutcome runsOutcome : FetchOutcome) (i : ℕ) (f : CField),
        i < events.length →
        blankGet (events.getD i cNull f) = false →
        (enrich_events_bulk_from_control_center events base hwOutcome
          runsOutcome).getD i cNull f = events.getD i cNull f)
  ∧ (∀ (events : List Canon) (base : Option String)
        (fetchRun : String → Option Value) (i : ℕ) (f : CField),
        i < events.length →
        blankGet (events.getD i cNull f) = false →
        (enrich_events_with_runs events base fetchRun).getD i cNull f
          = events.getD i cNull f)
  ∧ (∀ (events : List Canon) (base : Option String)
        (fetchJob fetchJobRuntime : String → Option Value)
        (events' : List Canon) (i : ℕ) (f : CField),
        enrich_events_with_jobs events base fetchJob fetchJobRuntime = .ok events' →
        i < events.length →
        blankGet (events.getD i cNull f) = false →
        events'.getD i cNull f = events.getD i cNull f) := by
  refine ⟨?_, ?_, ?_⟩
  · intro events base hw runs i f hi h
    rcases cc_stage_shape events base hw runs with hs | ⟨tbl, hwN, hs⟩
    · rw [hs]
    · rw [hs, map_getD _ _ i hi]
      exact enrichOneFromCC_preserve tbl hwN _ f h
  · intro events base fetchRun i f hi h
    rcases runs_stage_shape events base fetchRun with hs | ⟨tbl, hs⟩
    · rw [hs]
    · rw [hs, map_getD _ _ i hi]
      exact enrichOneWithRuns_preserve tbl _ f h
  · intro events base fJ fJR events' i f hok hi h
    rcases jobs_stage_shape events base fJ fJR with hs | ⟨tbl, hs⟩
    · rw [hs] at hok
      cases hok
      rfl
    · rw [hs] at hok
      exact enrichOneWithJobs_preserve tbl _ _ f
        (forall₂_getD (mapM_ok_forall₂ _ _ _ hok) i hi) h

/-- Witness for C1: a concrete event whose `command` is already set survives
the runs stage unchanged. -/
theorem fill_only_if_blank_invariant_witness :
    (enrich_events_with_runs [fun _ => Value.s "x"] none (fun _ => none)).getD
        0 cNull CField.command
      = List.getD [fun _ => Value.s "x"] 0 cNull CField.command :=
  fill_only_if_blank_invariant.2.1 [fun _ => Value.s "x"] none (fun _ => none)
    0 .command (by decide) (by rfl)

/-- C9: Enrichment idempotence.  Applying a stage's fill phase a second time
with the same resolved tables (the oracles are deterministic within one
request) changes nothing: the Control-Center and runs stages are literally
idempotent, and a completed jobs stage re-run on its own output returns that
output. -/
theorem enrichment_fill_idempotent :
    (∀ (events : List Canon) (base : Option String)
        (hwOutcome runsOutcome : FetchOutcome),
        enrich_events_bulk_from_control_center
          (enrich_events_bulk_from_control_center events base hwOutcome
            runsOutcome) base hwOutcome runsOutcome
          = enrich_events_bulk_from_control_center events base hwOutcome
              runsOutcome)
  ∧ (∀ (events : List Canon) (base : Option String)
        (fetchRun : String → Option Value),
        enrich_events_with_runs (enrich_events_with_runs events base fetchRun)
            base fetchRun
          = enrich_events_with_runs events base fetchRun)
  ∧ (∀ (events : List Canon) (base : Option String)
        (fetchJob fetchJobRuntime : String → Option Value)
        (events' : List Canon),
        enrich_events_with_jobs events base fetchJob fetchJobRuntime = .ok events' →
        enrich_events_with_jobs events' base fetchJob fetchJobRuntime = .ok events') :=
  ⟨fun events base hw runs => cc_stage_idem events base hw runs,
   fun events base fetchRun => runs_stage_idem events base fetchRun,
   fun events base fJ fJR events' hok =>
     jobs_stage_idem events base fJ fJR events' hok⟩

/-- Witness for C9 at a concrete completed jobs stage. -/
theorem enrichment_fill_idempotent_witness :
    enrich_events_with_jobs [] none (fun _ => none) (fun _ => none) = .ok [] :=
  enrichment_fill_idempotent.2.2 [] none (fun _ => none) (fun _ => none) []
    (by rfl)

/-- C10 (implicit): no enrichment stage ever writes `None` or `""` — whenever
a stage changes a canonical field of an event, the new value is neither
`None` nor the empty string. -/
theorem enrichment_writes_are_nonblank :
    (∀ (events : List Canon) (base : Option String)
        (hwOutcome runsOutcome : FetchOutcome) (i : ℕ) (f : CField),
        i < events.length →
        (enrich_events_bulk_from_control_center events base hwOutcome
          runsOutcome).getD i cNull f ≠ events.getD i cNull f →
        blankVal ((enrich_events_bulk_from_control_center events base hwOutcome
          runsOutcome).getD i cNull f) = false)
  ∧ (∀ (events : List Canon) (base : Option String)
        (fetchRun : String → Option Value) (i : ℕ) (f : CField),
        i < events.length →
        (enrich_events_with_runs events base fetchRun).getD i cNull f
          ≠ events.getD i cNull f →
        blankVal ((enrich_events_with_runs events base fetchRun).getD
          i cNull f) = false)
  ∧ (∀ (events : List Canon) (base : Option String)
        (fetchJob fetchJobRuntime : String → Option Value)
        (events' : List Canon) (i : ℕ) (f : CField),
        enrich_events_with_jobs events base fetchJob fetchJobRuntime = .ok events' →
        i < events.length →
        events'.getD i cNull f ≠ events.getD i cNull f →
        blankVal (events'.getD i cNull f) = false) := by
  refine ⟨?_, ?_, ?_⟩
  · intro events base hw runs i f hi h
    rcases cc_stage_shape events base hw runs with hs | ⟨tbl, hwN, hs⟩
    · rw [hs] at h
      exact absurd rfl h
    · rw [hs, map_getD _ _ i hi] at h ⊢
      exact enrichOneFromCC_changed tbl hwN _ f h
  · intro events base fetchRun i f hi h
    rcases runs_stage_shape events base fetchRun with hs | ⟨tbl, hs⟩
    · rw [hs] at h
      exact absurd rfl h
    · rw [hs, map_getD _ _ i hi] at h ⊢
      exact enrichOneWithRuns_changed tbl _ f h
  · intro events base fJ fJR events' i f hok hi h
    rcases jobs_stage_shape events base fJ fJR with hs | ⟨tbl, hs⟩
    · rw [hs] at hok
      cases hok
      exact absurd rfl h
    · rw [hs] at hok
      exact enrichOneWithJobs_changed tbl _ _ f
        (forall₂_getD (mapM_ok_forall₂ _ _ _ hok) i hi) h

/-! ### Discovery step lemmas -/

theorem discoverPath_found (fetch1 : String → Except String UpResp) (p : String)
    (rest : List String) (S : Option ℕ) (E : Option String) (r : UpResp)
    (hf : fetch1 p = .ok r) (hok : respOkStatus r.status = true) :
    discoverPath fetch1 (p :: rest) S E = ([p], .found p r.body) := by
  unfold discoverPath
  rw [hf]
  simp [hok]

theorem discoverPath_fail (fetch1 : String → Except String UpResp) (p : String)
    (rest : List String) (S : Option ℕ) (E : Option String) (r : UpResp)
    (hf : fetch1 p = .ok r) (hok : respOkStatus r.status = false)
    (h404 : r.status ≠ 404) :
    discoverPath fetch1 (p :: rest) S E
      = ([p], .exhausted (some r.status)
          (some (sanitize_upstream_error r.status r.body))) := by
  unfold discoverPath
  rw [hf]
  simp [hok, h404]

theorem discoverPath_step (fetch1 : String → Except String UpResp) (p : String)
    (rest : List String) (S : Option ℕ) (E : Option String) (r : UpResp)
    (hf : fetch1 p = .ok r) (h404 : r.status = 404) :
    discoverPath fetch1 (p :: rest) S E
      = (p :: (discoverPath fetch1 rest (some 404)
            (some (sanitize_upstream_error 404 r.body))).1,
         (discoverPath fetch1 rest (some 404)
            (some (sanitize_upstream_error 404 r.body))).2) := by
  have key : discoverPath fetch1 (p :: rest) S E =
      match fetch1 p with
      | .error e => ([p], .transport e)
      | .ok r' =>
        if respOkStatus r'.status = true then ([p], .found p r'.body)
        else
          if r'.status ≠ 404 then
            ([p], .exhausted (some r'.status)
              (some (sanitize_upstream_error r'.status r'.body)))
          else
            (p :: (discoverPath fetch1 rest (some r'.status)
                (some (sanitize_upstream_error r'.status r'.body))).1,
             (discoverPath fetch1 rest (some r'.status)
                (some (sanitize_upstream_error r'.status r'.body))).2) := rfl
  rw [key, hf]
  have h4 : respOkStatus 404 = false := by decide
  simp [h404, h4]

theorem discoverPath_skip_404s (fetch1 : String → Except String UpResp) :
    ∀ (pre : List String) (S : Option ℕ) (E : Option String),
      (∀ q ∈ pre, ∃ rq, fetch1 q = .ok rq ∧ rq.status = 404) →
      ∀ (p : String) (rest : List String) (r : UpResp), fetch1 p = .ok r →
      (respOkStatus r.status = true →
        discoverPath fetch1 (pre ++ p :: rest) S E = (pre ++ [p], .found p r.body))
      ∧ (respOkStatus r.status = false → r.status ≠ 404 →
        discoverPath fetch1 (pre ++ p :: rest) S E
          = (pre ++ [p], .exhausted (some r.status)
              (some (sanitize_upstream_error r.status r.body)))) := by
  intro pre
  induction pre with
  | nil =>
    intro S E _ p rest r hf
    constructor
    · intro hok
      simpa using discoverPath_found fetch1 p rest S E r hf hok
    · intro hok h404
      simpa using discoverPath_fail fetch1 p rest S E r hf hok h404
  | cons q pre ih =>
    intro S E hpre p rest r hf
    obtain ⟨rq, hq, hq404⟩ := hpre q (by simp)
    have hstep := discoverPath_step fetch1 q (pre ++ p :: rest) S E rq hq hq404
    have ihs := ih (some 404) (some (sanitize_upstream_error 404 rq.body))
      (fun x hx => hpre x (by simp [hx])) p rest r hf
    constructor
    · intro hok
      rw [List.cons_append, hstep, ihs.1 hok]
      simp
    · intro hok h404
      rw [List.cons_append, hstep, ihs.2 hok h404]
      simp

/-- C8: Path discovery at the audit endpoint.  With the configured paths
tried in order, after any prefix of paths answering 404: a path answering
success stops discovery there (nothing after it is requested); a path
answering a non-404 failure is terminal — no further fallback is tried and
the endpoint returns the error envelope built from that failure. -/
theorem audit_path_discovery :
    (∀ (fetch1 : String → Except String UpResp) (pre : List String)
        (p : String) (rest : List String) (r : UpResp),
        (∀ q ∈ pre, ∃ rq, fetch1 q = .ok rq ∧ rq.status = 404) →
        fetch1 p = .ok r →
        (respOkStatus r.status = true →
          discoverPath fetch1 (pre ++ p :: rest) none none
            = (pre ++ [p], .found p r.body))
        ∧ (respOkStatus r.status = false → r.status ≠ 404 →
          discoverPath fetch1 (pre ++ p :: rest) none none
            = (pre ++ [p], .exhausted (some r.status)
                (some (sanitize_upstream_error r.status r.body)))))
  ∧ (∀ (limitParam : Option ℤ) (offset0 : ℕ) (pre : List String) (p : String)
        (rest : List String) (fetch : String → ℕ → ℕ → Except String UpResp)
        (r : UpResp),
        (∀ q ∈ pre, ∃ rq, fetch q offset0 (pageLimitOf limitParam) = .ok rq
          ∧ rq.status = 404) →
        fetch p offset0 (pageLimitOf limitParam) = .ok r →
        respOkStatus r.status = false → r.status ≠ 404 →
        auditCore limitParam offset0 (pre ++ p :: rest) fetch
          = ((pre ++ [p]).map (fun q =>
                (⟨q, offset0, pageLimitOf limitParam⟩ : PageReq)),
             .error (discoveryFailureEnvelope (some r.status)
               (some (sanitize_upstream_error r.status r.body))))) := by
  constructor
  · intro fetch1 pre p rest r hpre hf
    exact discoverPath_skip_404s fetch1 pre none none hpre p rest r hf
  · intro limitParam offset0 pre p rest fetch r hpre hf hok h404
    have hd := (discoverPath_skip_404s
        (fun q => fetch q offset0 (pageLimitOf limitParam)) pre none none hpre
        p rest r hf).2 hok h404
    unfold auditCore
    dsimp only
    rw [hd]

/-! ### Pagination step lemmas -/

theorem pageLoop_stop (fetch2 : ℕ → Except String UpResp) (path : String)
    (requested : ℕ) (events : List Canon) (lastRaw offset : ℕ)
    (log : List PageReq)
    (hc : ¬(AUDIT_API_MAX_LIMIT < requested ∧ events.length < requested
      ∧ AUDIT_API_MAX_LIMIT ≤ lastRaw ∧ offset < AUDIT_PAGINATION_CAP)) :
    pageLoop fetch2 path requested events lastRaw offset log
      = (log, .ok events) := by
  conv_lhs => rw [pageLoop.eq_def]
  rw [dif_neg hc]

theorem pageLoop_fetch_ok (fetch2 : ℕ → Except String UpResp) (path : String)
    (requested : ℕ) (events : List Canon) (lastRaw offset : ℕ)
    (log : List PageReq)
    (hc : AUDIT_API_MAX_LIMIT < requested ∧ events.length < requested
      ∧ AUDIT_API_MAX_LIMIT ≤ lastRaw ∧ offset < AUDIT_PAGINATION_CAP)
    (r : UpResp) (raws : List Value) (es : List Canon)
    (hr : fetch2 offset = .ok r) (hok : respOkStatus r.status = true)
    (hp : parse_events_from_response r.body = .ok raws)
    (hn : normalizeRaws raws = .ok es) :
    pageLoop fetch2 path requested events lastRaw offset log
      = if raws.length < AUDIT_API_MAX_LIMIT then
          (log ++ [⟨path, offset, AUDIT_API_MAX_LIMIT⟩], .ok (events ++ es))
        else
          pageLoop fetch2 path requested (events ++ es) raws.length
            (offset + AUDIT_API_MAX_LIMIT)
            (log ++ [⟨path, offset, AUDIT_API_MAX_LIMIT⟩]) := by
  conv_lhs => rw [pageLoop.eq_def]
  rw [dif_pos hc]
  dsimp only
  rw [hr]
  simp only [hok, hp, hn, Bool.not_true]
  rfl

theorem pageLoop_norm_error (fetch2 : ℕ → Except String UpResp) (path : String)
    (requested : ℕ) (events : List Canon) (lastRaw offset : ℕ)
    (log : List PageReq)
    (hc : AUDIT_API_MAX_LIMIT < requested ∧ events.length < requested
      ∧ AUDIT_API_MAX_LIMIT ≤ lastRaw ∧ offset < AUDIT_PAGINATION_CAP)
    (r : UpResp) (raws : List Value) (msg : String)
    (hr : fetch2 offset = .ok r) (hok : respOkStatus r.status = true)
    (hp : parse_events_from_response r.body = .ok raws)
    (hn : normalizeRaws raws = .error msg) :
    pageLoop fetch2 path requested events lastRaw offset log
      = (log ++ [⟨path, offset, AUDIT_API_MAX_LIMIT⟩], .error ⟨msg, 502⟩) := by
  conv_lhs => rw [pageLoop.eq_def]
  rw [dif_pos hc]
  dsimp only
  rw [hr]
  simp only [hok, hp, hn, Bool.not_true]
  rfl

theorem mapM_normalize_ok_of_forall :
    ∀ (l : List Value), (∀ v ∈ l, (normalizeValue v).isOk = true) →
      ∃ es : List Canon, l.mapM normalizeValue = .ok es ∧ es.length = l.length := by
  intro l
  induction l with
  | nil => exact fun _ => ⟨[], rfl, rfl⟩
  | cons v l ih =>
    intro h
    obtain ⟨es, hes, hlen⟩ := ih (fun x hx => h x (by simp [hx]))
    have hv := h v (by simp)
    cases hgv : normalizeValue v with
    | error e =>
      rw [hgv] at hv
      simp [Except.isOk, Except.toBool] at hv
    | ok c =>
      refine ⟨c :: es, ?_, by simp [hlen]⟩
      rw [List.mapM_cons, hgv]
      show (l.mapM normalizeValue >>= fun xs => pure (c :: xs)) = _
      rw [hes]
      rfl

theorem normalizeRaws_ok_allObj (raws : List Value)
    (hobj : ∀ v ∈ raws, v.isObj = true)
    (hok : ∀ v ∈ raws, (normalizeValue v).isOk = true) :
    ∃ es : List Canon, normalizeRaws raws = .ok es ∧ es.length = raws.length := by
  have hfilter : raws.filter Value.isObj = raws := by
    rw [List.filter_eq_self]
    exact hobj
  unfold normalizeRaws
  rw [hfilter]
  exact mapM_normalize_ok_of_forall raws hok

/-- Shared first-page reduction for the pagination claim: with a single
working path answering 200 with a JSON list, the handler normalizes page one
and enters the pagination loop. -/
theorem auditCore_first_page (p : String)
    (fetch : String → ℕ → ℕ → Except String UpResp) (raws1 : List Value)
    (h1 : fetch p 0 1000 = .ok ⟨200, .arr raws1⟩) :
    auditCore (some 2500) 0 [p] fetch
      = match normalizeRaws raws1 with
        | .error e => ([⟨p, 0, 1000⟩], .error ⟨e, 502⟩)
        | .ok es =>
          pageLoop (fun off => fetch p off AUDIT_API_MAX_LIMIT) p 2500 es
            raws1.length 1000 [⟨p, 0, 1000⟩] := by
  have hpl : pageLimitOf (some 2500) = 1000 := by decide
  have hreq : requestedLimit (some 2500) = 2500 := by decide
  unfold auditCore
  dsimp only
  rw [hpl, hreq]
  rw [discoverPath_found (fun q => fetch q 0 1000) p [] none none
    ⟨200, .arr raws1⟩ h1 (by rfl)]
  dsimp only
  cases hn : normalizeRaws raws1 with
  | error e => simp [parse_events_from_response, hn]
  | ok es => simp [parse_events_from_response, hn]

/-- C2 (amended): with `limit=2500` and an upstream cap of 1000, when the
first two pages each return 1000 JSON-object records that normalize
successfully, the controller issues exactly 3 page fetches at offsets 0,
1000 and 2000 — each with requested size 1000 (the final page is requested
at the full cap, not the 500-record remainder) — and it issues no further
page fetch as soon as any page returns fewer than 1000 records. -/
theorem audit_pagination_amended :
    (∀ (p : String) (fetch : String → ℕ → ℕ → Except String UpResp)
        (raws1 raws2 raws3 : List Value),
        fetch p 0 1000 = .ok ⟨200, .arr raws1⟩ →
        fetch p 1000 1000 = .ok ⟨200, .arr raws2⟩ →
        fetch p 2000 1000 = .ok ⟨200, .arr raws3⟩ →
        raws1.length = 1000 → raws2.length = 1000 →
        (∀ v ∈ raws1, v.isObj = true) → (∀ v ∈ raws2, v.isObj = true) →
        (∀ v ∈ raws3, v.isObj = true) →
        (∀ v ∈ raws1, (normalizeValue v).isOk = true) →
        (∀ v ∈ raws2, (normalizeValue v).isOk = true) →
        (∀ v ∈ raws3, (normalizeValue v).isOk = true) →
        (auditCore (some 2500) 0 [p] fetch).1
          = [⟨p, 0, 1000⟩, ⟨p, 1000, 1000⟩, ⟨p, 2000, 1000⟩])
  ∧ (∀ (p : String) (fetch : String → ℕ → ℕ → Except String UpResp)
        (raws1 : List Value),
        fetch p 0 1000 = .ok ⟨200, .arr raws1⟩ →
        raws1.length < 1000 →
        (auditCore (some 2500) 0 [p] fetch).1 = [⟨p, 0, 1000⟩])
  ∧ (∀ (p : String) (fetch : String → ℕ → ℕ → Except String UpResp)
        (raws1 raws2 : List Value),
        fetch p 0 1000 = .ok ⟨200, .arr raws1⟩ →
        fetch p 1000 1000 = .ok ⟨200, .arr raws2⟩ →
        raws1.length = 1000 → raws2.length < 1000 →
        (∀ v ∈ raws1, v.isObj = true) →
        (∀ v ∈ raws1, (normalizeValue v).isOk = true) →
        (auditCore (some 2500) 0 [p] fetch).1
          = [⟨p, 0, 1000⟩, ⟨p, 1000, 1000⟩]) := by
  have hM : AUDIT_API_MAX_LIMIT = 1000 := rfl
  have hC : AUDIT_PAGINATION_CAP = 50000 := rfl
  refine ⟨?_, ?_, ?_⟩
  · intro p fetch raws1 raws2 raws3 h1 h2 h3 hl1 hl2 hobj1 hobj2 hobj3
      hok1 hok2 hok3
    obtain ⟨es1, hn1, he1⟩ := normalizeRaws_ok_allObj raws1 hobj1 hok1
    obtain ⟨es2, hn2, he2⟩ := normalizeRaws_ok_allObj raws2 hobj2 hok2
    obtain ⟨es3, hn3, he3⟩ := normalizeRaws_ok_allObj raws3 hobj3 hok3
    have hcore := auditCore_first_page p fetch raws1 h1
    simp only [hn1] at hcore
    have step1 : pageLoop (fun off => fetch p off AUDIT_API_MAX_LIMIT) p 2500
        es1 raws1.length 1000 [⟨p, 0, 1000⟩]
        = pageLoop (fun off => fetch p off AUDIT_API_MAX_LIMIT) p 2500
            (es1 ++ es2) raws2.length 2000
            [⟨p, 0, 1000⟩, ⟨p, 1000, 1000⟩] := by
      rw [pageLoop_fetch_ok (fun off => fetch p off AUDIT_API_MAX_LIMIT) p 2500
        es1 raws1.length 1000 _ (by rw [hM, hC]; omega) _ raws2 es2 h2 (by rfl)
        rfl hn2]
      rw [if_neg (by rw [hM]; omega)]
      simp [hM]
    by_cases hlt : raws3.length < 1000
    · have step2 : pageLoop (fun off => fetch p off AUDIT_API_MAX_LIMIT) p 2500
          (es1 ++ es2) raws2.length 2000 [⟨p, 0, 1000⟩, ⟨p, 1000, 1000⟩]
          = ([⟨p, 0, 1000⟩, ⟨p, 1000, 1000⟩, ⟨p, 2000, 1000⟩],
             .ok (es1 ++ es2 ++ es3)) := by
        rw [pageLoop_fetch_ok (fun off => fetch p off AUDIT_API_MAX_LIMIT) p
          2500 (es1 ++ es2) raws2.length 2000 _
          (by rw [hM, hC]; simp only [List.length_append]; omega) _ raws3 es3
          h3 (by rfl) rfl hn3]
        rw [if_pos (by rw [hM]; omega)]
        simp [hM]
      rw [hcore, step1, step2]
    · have step2 : pageLoop (fun off => fetch p off AUDIT_API_MAX_LIMIT) p 2500
          (es1 ++ es2) raws2.length 2000 [⟨p, 0, 1000⟩, ⟨p, 1000, 1000⟩]
          = pageLoop (fun off => fetch p off AUDIT_API_MAX_LIMIT) p 2500
              (es1 ++ es2 ++ es3) raws3.length 3000
              [⟨p, 0, 1000⟩, ⟨p, 1000, 1000⟩, ⟨p, 2000, 1000⟩] := by
        rw [pageLoop_fetch_ok (fun off => fetch p off AUDIT_API_MAX_LIMIT) p
          2500 (es1 ++ es2) raws2.length 2000 _
          (by rw [hM, hC]; simp only [List.length_append]; omega) _ raws3 es3
          h3 (by rfl) rfl hn3]
        rw [if_neg (by rw [hM]; omega)]
        simp [hM]
      have step3 : pageLoop (fun off => fetch p off AUDIT_API_MAX_LIMIT) p 2500
          (es1 ++ es2 ++ es3) raws3.length 3000
          [⟨p, 0, 1000⟩, ⟨p, 1000, 1000⟩, ⟨p, 2000, 1000⟩]
          = ([⟨p, 0, 1000⟩, ⟨p, 1000, 1000⟩, ⟨p, 2000, 1000⟩],
             .ok (es1 ++ es2 ++ es3)) :=
        pageLoop_stop _ p 2500 (es1 ++ es2 ++ es3) raws3.length 3000 _
          (by rw [hM, hC]; simp only [List.length_append]; omega)
      rw [hcore, step1, step2, step3]
  · intro p fetch raws1 h1 hlen
    rw [auditCore_first_page p fetch raws1 h1]
    cases hn : normalizeRaws raws1 with
    | error e => rfl
    | ok es =>
      dsimp only
      rw [pageLoop_stop (fun off => fetch p off AUDIT_API_MAX_LIMIT) p 2500
        es raws1.length 1000 _ (by rw [hM]; omega)]
  · intro p fetch raws1 raws2 h1 h2 hl1 hl2 hobj1 hok1
    obtain ⟨es1, hn1, he1⟩ := normalizeRaws_ok_allObj raws1 hobj1 hok1
    have hcore := auditCore_first_page p fetch raws1 h1
    simp only [hn1] at hcore
    cases hn2 : normalizeRaws raws2 with
    | error e =>
      have step1 : pageLoop (fun off => fetch p off AUDIT_API_MAX_LIMIT) p 2500
          es1 raws1.length 1000 [⟨p, 0, 1000⟩]
          = ([⟨p, 0, 1000⟩, ⟨p, 1000, 1000⟩], .error ⟨e, 502⟩) := by
        rw [pageLoop_norm_error (fun off => fetch p off AUDIT_API_MAX_LIMIT) p
          2500 es1 raws1.length 1000 _ (by rw [hM, hC]; omega) _ raws2 e h2
          (by rfl) rfl hn2]
        simp [hM]
      rw [hcore, step1]
    | ok es2 =>
      have step1 : pageLoop (fun off => fetch p off AUDIT_API_MAX_LIMIT) p 2500
          es1 raws1.length 1000 [⟨p, 0, 1000⟩]
          = ([⟨p, 0, 1000⟩, ⟨p, 1000, 1000⟩], .ok (es1 ++ es2)) := by
        rw [pageLoop_fetch_ok (fun off => fetch p off AUDIT_API_MAX_LIMIT) p
          2500 es1 raws1.length 1000 _ (by rw [hM, hC]; omega) _ raws2 es2 h2
          (by rfl) rfl hn2]
        rw [if_pos (by rw [hM]; omega)]
        simp [hM]
      rw [hcore, step1]

/-- C2 counterexample: with `limit=2500` and every page full (1000 JSON
objects), the three page fetches all request 1000 records — the third is not
the 500-record remainder the claim predicts. -/
theorem audit_pagination_counterexample :
    (auditCore (some 2500) 0 ["/api/audittrail/v1/auditevents"]
        (fun _ _ _ => .ok ⟨200, .arr (List.replicate 1000 (.obj []))⟩)).1
      = [⟨"/api/audittrail/v1/auditevents", 0, 1000⟩,
         ⟨"/api/audittrail/v1/auditevents", 1000, 1000⟩,
         ⟨"/api/audittrail/v1/auditevents", 2000, 1000⟩]
    ∧ ¬ ((auditCore (some 2500) 0 ["/api/audittrail/v1/auditevents"]
        (fun _ _ _ => .ok ⟨200, .arr (List.replicate 1000 (.obj []))⟩)).1
      = [⟨"/api/audittrail/v1/auditevents", 0, 1000⟩,
         ⟨"/api/audittrail/v1/auditevents", 1000, 1000⟩,
         ⟨"/api/audittrail/v1/auditevents", 2000, 500⟩]) := by
  have hrep : ∀ v ∈ List.replicate 1000 (Value.obj ([] : List (String × Value))),
      v = Value.obj [] := by
    intro v hv
    exact (List.eq_of_mem_replicate hv)
  have hlog := audit_pagination_amended.1 "/api/audittrail/v1/auditevents"
    (fun _ _ _ => .ok ⟨200, .arr (List.replicate 1000 (.obj []))⟩)
    (List.replicate 1000 (.obj [])) (List.replicate 1000 (.obj []))
    (List.replicate 1000 (.obj [])) rfl rfl rfl (by rw [List.length_replicate])
    (by rw [List.length_replicate])
    (fun v hv => by rw [hrep v hv]; rfl)
    (fun v hv => by rw [hrep v hv]; rfl)
    (fun v hv => by rw [hrep v hv]; rfl)
    (fun v hv => by rw [hrep v hv]; rfl)
    (fun v hv => by rw [hrep v hv]; rfl)
    (fun v hv => by rw [hrep v hv]; rfl)
  refine ⟨hlog, ?_⟩
  rw [hlog]
  intro hcontra
  have := List.getElem_of_eq hcontra (by decide : (2 : ℕ) < 3)
  simp at this

/-- Witness for C2's amended theorem: the early-stop conjunct at a concrete
short first page. -/
theorem audit_pagination_amended_witness :
    (auditCore (some 2500) 0 ["/p"] (fun _ _ _ => .ok ⟨200, .arr []⟩)).1
      = [⟨"/p", 0, 1000⟩] :=
  audit_pagination_amended.2.1 "/p" (fun _ _ _ => .ok ⟨200, .arr []⟩) []
    rfl (by decide)

/-- An oracle for the C8 witness: primary path 404, first fallback 403. -/
def w8fetch : String → ℕ → ℕ → Except String UpResp := fun p _ _ =>
  if p = "/a" then .ok ⟨404, .null⟩
  else if p = "/b" then .ok ⟨403, .s "forbidden"⟩
  else .ok ⟨200, .arr []⟩

/-- Witness for C8: primary 404 falls through to the fallback, whose 403 is
terminal and surfaces as the error envelope. -/
theorem audit_path_discovery_witness :
    auditCore (some 10) 0 (["/a"] ++ "/b" :: ["/c"]) w8fetch
      = ((["/a"] ++ ["/b"]).map (fun q =>
            (⟨q, 0, pageLimitOf (some 10)⟩ : PageReq)),
         .error (discoveryFailureEnvelope (some 403)
           (some (sanitize_upstream_error 403 (.s "forbidden"))))) :=
  audit_path_discovery.2 (some 10) 0 ["/a"] "/b" ["/c"] w8fetch
    ⟨403, .s "forbidden"⟩
    (by
      intro q hq
      simp only [List.mem_singleton] at hq
      subst hq
      exact ⟨⟨404, .null⟩, rfl, rfl⟩)
    (by rfl) (by decide) (by decide)

/-- C7: Bulk-enrichment degradation.  The Control-Center stage returns the
event list unmodified when no event has a numeric timestamp, and likewise
when the run-utilization fetch fails (transport error or non-2xx status);
a failure of the hardware-tier lookup alone does not abort the stage — the
stage behaves exactly as with a successful lookup that yields an empty
tier table. -/
theorem cc_bulk_degradation :
    (∀ (events : List Canon) (base : Option String)
        (hwOutcome runsOutcome : FetchOutcome),
        (∀ e ∈ events, ((e .timestamp).asNum?).isSome = false) →
        enrich_events_bulk_from_control_center events base hwOutcome runsOutcome
          = events)
  ∧ (∀ (events : List Canon) (base : Option String) (hwOutcome : FetchOutcome)
        (msg : String),
        enrich_events_bulk_from_control_center events base hwOutcome
          (.transport msg) = events)
  ∧ (∀ (events : List Canon) (base : Option String) (hwOutcome : FetchOutcome)
        (status : ℕ) (body : Value),
        respOkStatus status = false →
        enrich_events_bulk_from_control_center events base hwOutcome
          (.resp status body) = events)
  ∧ (∀ (events : List Canon) (base : Option String) (hwMsg : String)
        (runsOutcome : FetchOutcome),
        enrich_events_bulk_from_control_center events base (.transport hwMsg)
            runsOutcome
          = enrich_events_bulk_from_control_center events base
              (.resp 200 (.arr [])) runsOutcome) := by
  refine ⟨?_, ?_, ?_, ?_⟩
  · intro events base hw runs h
    unfold enrich_events_bulk_from_control_center
    cases base
    · simp [CC_ENRICHMENT_ENABLED]
    · have hf : events.filter (fun e => ((e .timestamp).asNum?).isSome) = [] := by
        rw [List.filter_eq_nil]
        intro e he
        simp [h e he]
      simp [CC_ENRICHMENT_ENABLED, hf]
  · intro events base hw msg
    unfold enrich_events_bulk_from_control_center
    cases base <;> simp [CC_ENRICHMENT_ENABLED]
  · intro events base hw status body hst
    unfold enrich_events_bulk_from_control_center
    cases base <;> simp [CC_ENRICHMENT_ENABLED, hst]
  · intro events base hwMsg runs
    have h1 : ccHwTierNames (.transport hwMsg) = [] := rfl
    have h2 : ccHwTierNames (.resp 200 (.arr [])) = [] := rfl
    unfold enrich_events_bulk_from_control_center
    rw [h1, h2]

/-- Witness for C7: a failed run-utilization response leaves a concrete event
list untouched. -/
theorem cc_bulk_degradation_witness :
    respOkStatus 503 = false
    ∧ enrich_events_bulk_from_control_center [wEvent] (some "h")
        (.resp 200 (.arr [])) (.resp 503 Value.null) = [wEvent] :=
  ⟨by decide,
   cc_bulk_degradation.2.2.1 [wEvent] (some "h") (.resp 200 (.arr []))
     503 Value.null (by decide)⟩

/-- A concrete event with a `runId` and otherwise-blank fields, for the C10
witness. -/
def wEvent : Canon := fun f =>
  match f with
  | .runId => Value.s "r1"
  | _ => Value.null

/-- Witness for C10: the runs stage actually filling `command` writes a
non-blank value. -/
theorem enrichment_writes_are_nonblank_witness :
    blankVal ((enrich_events_with_runs [wEvent] (some "h")
        (fun _ => some (.obj [("command", Value.s "go")]))).getD
          0 cNull CField.command) = false :=
  enrichment_writes_are_nonblank.2.1 [wEvent] (some "h")
    (fun _ => some (.obj [("command", Value.s "go")])) 0 .command (by decide)
    (by
      intro h
      have h1 : (enrich_events_with_runs [wEvent] (some "h")
          (fun _ => some (.obj [("command", Value.s "go")]))).getD
            0 cNull CField.command = Value.s "go" := rfl
      have h2 : List.getD [wEvent] 0 cNull CField.command = Value.null := rfl
      rw [h1, h2] at h
      cases h)


/-! ## C3: the case-insensitive metadata index -/

theorem pyGet_pyDictSet_self (d : List (String × Value)) (k : String) (v : Value) :
    pyGet? (pyDictSet d k v) k = some v := by
  induction d with
  | nil => simp [pyDictSet, pyGet?]
  | cons hd tl ih =>
    obtain ⟨k', v'⟩ := hd
    by_cases hk : k' = k
    · simp [pyDictSet, pyGet?, hk]
    · simp [pyDictSet, pyGet?, hk, ih]

/-- C3 counterexample: a metadata mapping holding the two distinct keys
"Run Command" (value "A") and "run_command" (value "B"), which normalize to
the same key, both with nonblank string values.  The case-insensitive index
records "B" — the value of the LAST occurrence in iteration order — where the
claim predicts the value of the first-occurring key, "A". -/
theorem ci_first_wins_counterexample :
    ("Run Command" : String) ≠ "run_command"
    ∧ normKey "Run Command" = normKey "run_command"
    ∧ pyStrip "A" ≠ "" ∧ pyStrip "B" ≠ ""
    ∧ ci (metaLower [("Run Command", .s "A"), ("run_command", .s "B")])
        "runCommand" = .s "B"
    ∧ ci (metaLower [("Run Command", .s "A"), ("run_command", .s "B")])
        "runCommand" ≠ .s "A" := by
  refine ⟨by decide, rfl, by decide, by decide, rfl, ?_⟩
  intro h
  have h2 : Value.s "A" = Value.s "B" :=
    h.symm.trans (show ci (metaLower [("Run Command", .s "A"),
      ("run_command", .s "B")]) "runCommand" = Value.s "B" from rfl)
  injection h2 with h3
  exact absurd h3 (by decide)

/-- C3 (corrected): in the case-insensitive metadata index the LAST
occurrence wins, not the first.  Whatever qualifying entries come earlier in
the merged metadata mapping, an entry appended last whose key normalizes to
the looked-up key and whose value is a nonblank string determines the value
returned by the case-insensitive fallback lookup: its trimmed value. -/
theorem ci_index_last_occurrence_wins (md : List (String × Value))
    (key k t : String) (hk : normKey k = normKey key)
    (ht : pyStrip t ≠ "") :
    ci (metaLower (md ++ [(k, .s t)])) key = .s (pyStrip t) := by
  unfold ci metaLower
  rw [List.foldl_append]
  simp only [List.foldl_cons, List.foldl_nil]
  rw [if_pos ht, hk]
  unfold pyGet
  rw [pyGet_pyDictSet_self]
  rfl

/-- Witness for C3's amended theorem at the counterexample input. -/
theorem ci_index_last_occurrence_wins_witness :
    normKey "run_command" = normKey "runCommand"
    ∧ pyStrip "B" ≠ ""
    ∧ ci (metaLower ([("Run Command", Value.s "A")]
        ++ [("run_command", Value.s "B")])) "runCommand" = .s (pyStrip "B") :=
  ⟨rfl, by decide,
    ci_index_last_occurrence_wins [("Run Command", Value.s "A")]
      "runCommand" "run_command" "B" rfl (by decide)⟩



/-! ## C4: normalization on sparse input -/

/-- C4 counterexample: normalization is not null on all optional fields for
every raw event without actor/action/targets/affecting/metadata
substructures — the top-level "command" key feeds the canonical command field
directly — and normalization is not total: a truthy non-dict "actor" value
raises (AttributeError on `.get`) instead of degrading to an empty mapping. -/
theorem normalization_sparse_counterexample :
    (normalizeValue (.obj [("command", .s "ls")])).map (fun c => c .command)
        = .ok (.s "ls")
    ∧ (Value.s "ls" ≠ Value.null)
    ∧ normalizeValue (.obj [("actor", .s "bob")])
        = .error "AttributeError: object has no attribute get" :=
  ⟨rfl, fun h => Value.noConfusion h, rfl⟩

/-- C4 (corrected): normalization is total and null-filled on sparse input
once sparsity also covers the top-level fallback keys.  For every raw event
whose actor, action, in, targets, affecting and metadata entries are falsy
(absent, None, empty dict/list/string, 0 or False) and whose top-level
command/status/durationSec/computeTier/hardwareTier/environmentName/runId/
runFile/runOrigin keys are absent (None), normalization does not raise and
the optional canonical fields are all null.  (Totality fails without the
falsiness conditions: truthy non-dict substructures raise.) -/
theorem normalization_sparse_amended (raw : List (String × Value))
    (hactor : (pyGet raw "actor").truthy = false)
    (haction : (pyGet raw "action").truthy = false)
    (hin : (pyGet raw "in").truthy = false)
    (htargets : (pyGet raw "targets").truthy = false)
    (haff : (pyGet raw "affecting").truthy = false)
    (hmeta : (pyGet raw "metadata").truthy = false)
    (hcmd : pyGet raw "command" = .null)
    (hst : pyGet raw "status" = .null)
    (hdur : pyGet raw "durationSec" = .null)
    (hct : pyGet raw "computeTier" = .null)
    (hhw : pyGet raw "hardwareTier" = .null)
    (henv : pyGet raw "environmentName" = .null)
    (hrid : pyGet raw "runId" = .null)
    (hrf : pyGet raw "runFile" = .null)
    (hro : pyGet raw "runOrigin" = .null) :
    (normalize_audit_event raw).map (fun c =>
      [c .command, c .status, c .durationSec, c .computeTier, c .hardwareTier,
       c .hardwareTierId, c .environmentName, c .runId, c .jobId, c .runType,
       c .runFile, c .runOrigin, c .eventSource, c .actorName])
      = .ok [.null, .null, .null, .null, .null, .null, .null, .null, .null,
             .null, .null, .null, .null, .null] := by
  have hA : Value.pyOr (pyGet raw "actor") (.obj []) = .obj [] := by
    unfold Value.pyOr; rw [hactor]; rfl
  have hAc : Value.pyOr (pyGet raw "action") (.obj []) = .obj [] := by
    unfold Value.pyOr; rw [haction]; rfl
  have hIn : Value.pyOr (pyGet raw "in") (.obj []) = .obj [] := by
    unfold Value.pyOr; rw [hin]; rfl
  have hT : Value.pyOr (pyGet raw "targets") (.arr []) = .arr [] := by
    unfold Value.pyOr; rw [htargets]; rfl
  have hAf : Value.pyOr (pyGet raw "affecting") (.arr []) = .arr [] := by
    unfold Value.pyOr; rw [haff]; rfl
  unfold normalize_audit_event
  rw [hA, hAc, hIn, hT, hAf, hcmd, hst, hdur, hct, hhw, henv, hrid, hrf, hro]
  cases hv : pyGet raw "metadata" with
  | null => rfl
  | b x => rfl
  | n q => rfl
  | s t => rfl
  | arr xs =>
    rw [hv] at hmeta
    have hxs : xs = [] := by
      simpa [Value.truthy, List.isEmpty_iff] using hmeta
    subst hxs
    rfl
  | obj kvs =>
    rw [hv] at hmeta
    have hkvs : kvs = [] := by
      simpa [Value.truthy, List.isEmpty_iff] using hmeta
    subst hkvs
    rfl

/-- Witness for C4's amended theorem at the sparse raw event
with only "id" and "timestamp" keys. -/
theorem normalization_sparse_amended_witness :
    (pyGet [("id", Value.s "e1"), ("timestamp", Value.n 5)] "actor").truthy
        = false
    ∧ pyGet [("id", Value.s "e1"), ("timestamp", Value.n 5)] "command" = .null
    ∧ (normalize_audit_event [("id", Value.s "e1"), ("timestamp", Value.n 5)]).map
        (fun c =>
          [c .command, c .status, c .durationSec, c .computeTier,
           c .hardwareTier, c .hardwareTierId, c .environmentName, c .runId,
           c .jobId, c .runType, c .runFile, c .runOrigin, c .eventSource,
           c .actorName])
        = .ok [.null, .null, .null, .null, .null, .null, .null, .null, .null,
               .null, .null, .null, .null, .null] :=
  ⟨rfl, rfl,
    normalization_sparse_amended [("id", Value.s "e1"), ("timestamp", Value.n 5)]
      rfl rfl rfl rfl rfl rfl rfl rfl rfl rfl rfl rfl rfl rfl rfl⟩


/-! ## C5: command key variants -/

theorem dropWhile_prefix_clean (p : Char → Bool) (l l2 : List Char)
    (hpre : l2 <+: List.dropWhile p l) : List.dropWhile p l2 = l2 := by
  cases l2 with
  | nil => rfl
  | cons a xs =>
    obtain ⟨s, hs⟩ := hpre
    have hne : List.dropWhile p l ≠ [] := by
      rw [← hs]; simp
    have hh : (List.dropWhile p l).head? = some a := by
      rw [← hs]; rfl
    have ha : (List.dropWhile p l).head hne = a :=
      Option.some.inj ((List.head?_eq_head hne).symm.trans hh)
    have hf : p a = false := ha ▸ List.head_dropWhile_not p l hne
    have hnp : ¬ p a = true := by rw [hf]; simp
    rw [List.dropWhile_cons, if_neg hnp]

theorem pyStrip_idem (t : String) : pyStrip (pyStrip t) = pyStrip t := by
  have h1 : pyStrip t = String.mk (List.rdropWhile isSpaceChar
      (List.dropWhile isSpaceChar t.toList)) := rfl
  have hkey : ∀ l : List Char, pyStrip (String.mk l)
      = String.mk (List.rdropWhile isSpaceChar (List.dropWhile isSpaceChar l)) :=
    fun l => rfl
  rw [h1, hkey]
  rw [dropWhile_prefix_clean isSpaceChar t.toList _
    (List.rdropWhile_prefix _ _)]
  rw [List.rdropWhile_idempotent]

theorem first_non_empty_cons_nonblank (t : String) (rest : List Value)
    (h : pyStrip t ≠ "") :
    first_non_empty (Value.s t :: rest) = .s (pyStrip t) := by
  show (if pyStrip t ≠ "" then Value.s (pyStrip t)
    else first_non_empty rest) = Value.s (pyStrip t)
  rw [if_pos h]

/-- C5: case-insensitive command key matching.  For any one of the metadata
keys "Run Command", "runCommand", "run_command" or "RUN-COMMAND" holding a
nonblank string value (and no competing command-variant keys), normalization
yields the same canonical command field: the trimmed value. -/
theorem command_key_variants (k : String)
    (hk : k ∈ (["Run Command", "runCommand", "run_command",
      "RUN-COMMAND"] : List String))
    (v : String) (hv : pyStrip v ≠ "") :
    (normalize_audit_event [("metadata", .obj [(k, .s v)])]).map
      (fun c => c .command) = .ok (.s (pyStrip v)) := by
  simp only [List.mem_cons, List.mem_singleton, List.not_mem_nil, or_false] at hk
  rcases hk with rfl | rfl | rfl | rfl
  · have h0 : (normalize_audit_event
        [("metadata", Value.obj [("Run Command", Value.s v)])]).map
        (fun c => c CField.command)
        = Except.ok (first_non_empty (Value.s v :: [Value.null, Value.null,
            Value.null, Value.null, Value.null, Value.null,
            ci (metaLower [("Run Command", Value.s v)]) "runcommand",
            ci (metaLower [("Run Command", Value.s v)]) "command",
            Value.null])) := rfl
    rw [h0, first_non_empty_cons_nonblank v _ hv]
  · have h0 : (normalize_audit_event
        [("metadata", Value.obj [("runCommand", Value.s v)])]).map
        (fun c => c CField.command)
        = Except.ok (first_non_empty (Value.s v :: [Value.null, Value.null,
            Value.null, Value.null, Value.null,
            ci (metaLower [("runCommand", Value.s v)]) "runcommand",
            ci (metaLower [("runCommand", Value.s v)]) "command",
            Value.null])) := rfl
    rw [h0, first_non_empty_cons_nonblank v _ hv]
  · have hml : metaLower [("run_command", Value.s v)]
        = [("runcommand", Value.s (pyStrip v))] := by
      unfold metaLower
      simp only [List.foldl_cons, List.foldl_nil]
      rw [if_pos hv]
      rfl
    have h0 : (normalize_audit_event
        [("metadata", Value.obj [("run_command", Value.s v)])]).map
        (fun c => c CField.command)
        = Except.ok (first_non_empty
            (ci (metaLower [("run_command", Value.s v)]) "runcommand" ::
              [ci (metaLower [("run_command", Value.s v)]) "command",
               Value.null])) := rfl
    rw [h0, hml]
    have hci : ci [("runcommand", Value.s (pyStrip v))] "runcommand"
        = Value.s (pyStrip v) := rfl
    rw [hci, first_non_empty_cons_nonblank (pyStrip v) _
      (by rw [pyStrip_idem]; exact hv), pyStrip_idem]
  · have hml : metaLower [("RUN-COMMAND", Value.s v)]
        = [("runcommand", Value.s (pyStrip v))] := by
      unfold metaLower
      simp only [List.foldl_cons, List.foldl_nil]
      rw [if_pos hv]
      rfl
    have h0 : (normalize_audit_event
        [("metadata", Value.obj [("RUN-COMMAND", Value.s v)])]).map
        (fun c => c CField.command)
        = Except.ok (first_non_empty
            (ci (metaLower [("RUN-COMMAND", Value.s v)]) "runcommand" ::
              [ci (metaLower [("RUN-COMMAND", Value.s v)]) "command",
               Value.null])) := rfl
    rw [h0, hml]
    have hci : ci [("runcommand", Value.s (pyStrip v))] "runcommand"
        = Value.s (pyStrip v) := rfl
    rw [hci, first_non_empty_cons_nonblank (pyStrip v) _
      (by rw [pyStrip_idem]; exact hv), pyStrip_idem]

/-- Witness for C5 at the key "RUN-COMMAND" and value "ls -la". -/
theorem command_key_variants_witness :
    ("RUN-COMMAND" ∈ (["Run Command", "runCommand", "run_command",
        "RUN-COMMAND"] : List String))
    ∧ pyStrip "ls -la" ≠ ""
    ∧ (normalize_audit_event
        [("metadata", .obj [("RUN-COMMAND", .s "ls -la")])]).map
        (fun c => c .command) = .ok (.s (pyStrip "ls -la")) :=
  ⟨by decide, by decide,
    command_key_variants "RUN-COMMAND" (by decide) "ls -la" (by decide)⟩


/-! ## C6: stageTime duration -/

/-- C6: stage-time duration.  When metadata.stageTime.completedTime and
metadata.stageTime.runStartTime are both numeric with completedTime greater
than runStartTime and no higher-priority duration candidate is present,
normalization sets durationSec to (completedTime - runStartTime) / 1000; in
particular completedTime 1740415000000 and runStartTime 1740411000000 give
durationSec 4000. -/
theorem stage_time_duration (c s : ℚ) (h : s < c) :
    (normalize_audit_event [("metadata", .obj [("stageTime",
        .obj [("completedTime", .n c), ("runStartTime", .n s)])])]).map
      (fun cn => cn .durationSec) = .ok (.n ((c - s) / 1000))
    ∧ (normalize_audit_event [("metadata", .obj [("stageTime",
        .obj [("completedTime", .n 1740415000000),
              ("runStartTime", .n 1740411000000)])])]).map
      (fun cn => cn .durationSec) = .ok (.n 4000) := by
  have hgen : ∀ c2 s2 : ℚ, s2 < c2 →
      (normalize_audit_event [("metadata", .obj [("stageTime",
          .obj [("completedTime", .n c2), ("runStartTime", .n s2)])])]).map
        (fun cn => cn .durationSec) = .ok (.n ((c2 - s2) / 1000)) := by
    intro c2 s2 h2
    have h0 : (normalize_audit_event [("metadata", .obj [("stageTime",
        .obj [("completedTime", .n c2), ("runStartTime", .n s2)])])]).map
        (fun cn => cn CField.durationSec)
        = Except.ok (first_number [Value.null, Value.null, Value.null,
            Value.null, Value.null,
            if s2 < c2 then Value.n ((c2 - s2) / 1000) else Value.null]) := rfl
    rw [h0, if_pos h2]
    rfl
  refine ⟨hgen c s h, ?_⟩
  rw [hgen 1740415000000 1740411000000 (by norm_num)]
  simp only [Value.n.injEq, Except.ok.injEq]
  norm_num

/-- Witness for C6 at completedTime 5 and runStartTime 1. -/
theorem stage_time_duration_witness :
    ((1 : ℚ) < 5)
    ∧ ((normalize_audit_event [("metadata", .obj [("stageTime",
          .obj [("completedTime", .n 5), ("runStartTime", .n 1)])])]).map
        (fun cn => cn .durationSec) = .ok (.n ((5 - 1) / 1000))
      ∧ (normalize_audit_event [("metadata", .obj [("stageTime",
          .obj [("completedTime", .n 1740415000000),
                ("runStartTime", .n 1740411000000)])])]).map
        (fun cn => cn .durationSec) = .ok (.n 4000)) :=
  ⟨by decide, stage_time_duration 5 1 (by decide)⟩

end AuditApp
